import Mathlib

/-!
# Verification of the gRPC-MCP SDK against its specification

Shallow embedding of the Python source of the gRPC-MCP SDK
(`grpc_mcp_sdk` package and its `build/lib` copy) in Lean 4, together with
theorems settling the specification claims about:

* the tool registry (`core/registry.py`),
* the tool result data model and its wire conversion
  (`core/types.py`, `core/server.py`),
* the self-contained JWT implementation (`auth/jwt_auth.py`),
* the input sanitizer (`security/input_sanitizer.py`),
* the token-bucket rate limiter and its adaptive variant
  (`security/rate_limiter.py`),
* the A2A agent registry and workflow orchestrator (`a2a_extensions.py`).

Python strings are modelled as `List Char`, bytes as `List Nat`,
floats as `ℚ` (exact arithmetic stands in for IEEE doubles; all the
quantities involved are small enough that no rounding occurs in the
scenarios proved below), and fallible code as `Except`/`Option` values.
External standard-library primitives (HMAC-SHA256, Unicode NFC
normalization, the compiled dangerous-content regular expression and
HTML escaping) are taken as parameters of the definitions that call
them, so every theorem is proved for arbitrary behaviour of those
primitives unless stated otherwise.
-/

namespace GrpcMcpSdk

/-- Python `str` is modelled as a list of characters. -/
abbrev Str := List Char

/-- Python `bytes` is modelled as a list of natural numbers (each byte
value is reduced modulo 256 where it matters). -/
abbrev Bytes := List Nat

/-- `lookup` for Python dictionaries modelled as association lists
(first binding wins, as repeated keys never arise from `dict`). -/
def alookup {κ α : Type} [DecidableEq κ] (m : List (κ × α)) (k : κ) :
    Option α :=
  match m with
  | [] => none
  | (k', v) :: rest => if k' = k then some v else alookup rest k

/-- Assignment `m[k] = v` for a Python dictionary modelled as an
association list: replaces the binding when present, appends otherwise. -/
def aset {κ α : Type} [DecidableEq κ] (m : List (κ × α)) (k : κ) (v : α) :
    List (κ × α) :=
  match m with
  | [] => [(k, v)]
  | (k', v') :: rest =>
      if k' = k then (k', v) :: rest else (k', v') :: aset rest k v

/-- Membership test `k in m` for a Python dictionary. -/
def amem {κ α : Type} [DecidableEq κ] (m : List (κ × α)) (k : κ) : Bool :=
  (alookup m k).isSome

/-- Python's `sep.split` restricted to a single separator character,
as used by `token.split(".")` in the JWT decoder. -/
def splitOnChar (sep : Char) : Str → List Str
  | [] => [[]]
  | c :: rest =>
      if c = sep then [] :: splitOnChar sep rest
      else
        match splitOnChar sep rest with
        | [] => [[c]]
        | s :: ss => (c :: s) :: ss

/-- Python's substring test `pat in s`. -/
def containsSub (pat : Str) : Str → Bool
  | [] => decide (pat = [])
  | c :: rest => pat.isPrefixOf (c :: rest) || containsSub pat rest

/-- The scan of `replaceAll` below, with the remaining input length as
structural fuel (each step consumes at least one character, so the
initial fuel `s.length` always suffices). -/
def replaceAllFuel (pat repl : Str) : Nat → Str → Str
  | _, [] => []
  | 0, s => s
  | fuel + 1, c :: rest =>
      if pat ≠ [] ∧ pat.isPrefixOf (c :: rest) then
        repl ++ replaceAllFuel pat repl fuel
          (List.drop (pat.length - 1) rest)
      else
        c :: replaceAllFuel pat repl fuel rest

/-- Python's `s.replace(pat, repl)` (replaces every occurrence,
left to right; the empty pattern is never used by the source). -/
def replaceAll (pat repl s : Str) : Str :=
  replaceAllFuel pat repl s.length s

/-! ## JSON values and the `json` standard-library model

`json.dumps` / `json.loads` are Python standard-library functions used
by the JWT implementation (for its header and payload) and, in the
specification's reading of the workflow orchestrator, for rendering
structured content.  The values that cross those call sites are
strings, integers, arrays and string-keyed objects, captured by
`JVal`.  `jsonDumps` models `json.dumps` with its default options
(`ensure_ascii=True`, separators `", "` and `": "`); `jsonLoads`
models the subset of `json.loads` needed for such values. -/

inductive JVal : Type where
  | str (s : Str)
  | num (n : Int)
  | arr (xs : List JVal)
  | obj (kvs : List (Str × JVal))

/-- Lowercase hexadecimal digit, as produced by `json.dumps` for
`\uXXXX` escapes. -/
def hexDigit (n : Nat) : Char :=
  if n < 10 then Char.ofNat (48 + n % 16)
  else Char.ofNat (97 + n % 16 - 10)

/-- Four-digit lowercase hexadecimal rendering of `n % 0x10000`. -/
def hex4 (n : Nat) : Str :=
  [hexDigit (n / 4096 % 16), hexDigit (n / 256 % 16),
   hexDigit (n / 16 % 16), hexDigit (n % 16)]

/-- The escaping of one character inside a JSON string literal, per
`json.dumps` with `ensure_ascii=True`: backslash, double quote and any
character outside `0x20`–`0x7e` are escaped (shortcut escapes for the
usual control characters, `\uXXXX` otherwise, with a surrogate pair
for characters beyond the basic multilingual plane). -/
def jsonEscapeChar (c : Char) : Str :=
  if c = '"' then ['\\', '"']
  else if c = '\\' then ['\\', '\\']
  else if c = Char.ofNat 8 then ['\\', 'b']
  else if c = Char.ofNat 9 then ['\\', 't']
  else if c = Char.ofNat 10 then ['\\', 'n']
  else if c = Char.ofNat 12 then ['\\', 'f']
  else if c = Char.ofNat 13 then ['\\', 'r']
  else if 0x20 ≤ c.toNat ∧ c.toNat ≤ 0x7e then [c]
  else if c.toNat < 0x10000 then '\\' :: 'u' :: hex4 c.toNat
  else
    '\\' :: 'u' :: hex4 (0xd800 + (c.toNat - 0x10000) / 0x400) ++
      ('\\' :: 'u' :: hex4 (0xdc00 + (c.toNat - 0x10000) % 0x400))

/-- JSON string literal for `s` (quotes plus escaped contents). -/
def jsonQuote (s : Str) : Str :=
  '"' :: (s.flatMap jsonEscapeChar) ++ ['"']

/-- Decimal rendering of an integer, as Python's `str(int)`. -/
def intToStr (n : Int) : Str := (toString n).data

/-- `", "`-separated concatenation, as `json.dumps` uses between
array items and object members. -/
def joinCommaSpace : List Str → Str
  | [] => []
  | [s] => s
  | s :: rest => s ++ ',' :: ' ' :: joinCommaSpace rest

mutual

/-- Model of `json.dumps` with default options on `JVal` values. -/
def jsonDumps : JVal → Str
  | .str s => jsonQuote s
  | .num n => intToStr n
  | .arr xs => '[' :: joinCommaSpace (jsonDumpsList xs) ++ [']']
  | .obj kvs => '\x7b' :: joinCommaSpace (jsonDumpsObj kvs) ++ ['\x7d']

def jsonDumpsList : List JVal → List Str
  | [] => []
  | v :: rest => jsonDumps v :: jsonDumpsList rest

def jsonDumpsObj : List (Str × JVal) → List Str
  | [] => []
  | (k, v) :: rest =>
      (jsonQuote k ++ ':' :: ' ' :: jsonDumps v) :: jsonDumpsObj rest

end

/-- JSON whitespace skipping, as `json.loads` performs between tokens. -/
def skipWs : Str → Str
  | [] => []
  | c :: rest =>
      if c = ' ' ∨ c = Char.ofNat 9 ∨ c = Char.ofNat 10 ∨ c = Char.ofNat 13
      then skipWs rest else c :: rest

/-- Value of one hexadecimal digit character. -/
def hexVal (c : Char) : Option Nat :=
  if '0' ≤ c ∧ c ≤ '9' then some (c.toNat - 48)
  else if 'a' ≤ c ∧ c ≤ 'f' then some (c.toNat - 97 + 10)
  else if 'A' ≤ c ∧ c ≤ 'F' then some (c.toNat - 65 + 10)
  else none

/-- Value of a four-hex-digit escape body. -/
def hex4Val : Str → Option (Nat × Str)
  | a :: b :: c :: d :: rest => do
      let va ← hexVal a
      let vb ← hexVal b
      let vc ← hexVal c
      let vd ← hexVal d
      pure (va * 4096 + vb * 256 + vc * 16 + vd, rest)
  | _ => none

/-- Parse the contents of a JSON string literal after the opening
quote, decoding escapes; surrogate pairs are recombined as
`json.loads` does.  (CPython tolerates lone surrogates, which Lean
characters cannot represent; such inputs — never produced by
`json.dumps` from scalar values — are rejected here.) -/
def parseStringBody : Nat → Str → Option (Str × Str)
  | 0, _ => none
  | _, [] => none
  | fuel + 1, c :: rest =>
      if c = '"' then some ([], rest)
      else if c = '\\' then
        match rest with
        | [] => none
        | e :: rest' =>
            if e = 'u' then
              match hex4Val rest' with
              | none => none
              | some (n, rest'') =>
                  if 0xd800 ≤ n ∧ n ≤ 0xdbff then
                    match rest'' with
                    | '\\' :: 'u' :: rest3 =>
                        match hex4Val rest3 with
                        | none => none
                        | some (m, rest4) =>
                            if 0xdc00 ≤ m ∧ m ≤ 0xdfff then do
                              let (s, r) ← parseStringBody fuel rest4
                              pure (Char.ofNat
                                (0x10000 + (n - 0xd800) * 0x400 +
                                  (m - 0xdc00)) :: s, r)
                            else none
                    | _ => none
                  else if 0xdc00 ≤ n ∧ n ≤ 0xdfff then none
                  else do
                    let (s, r) ← parseStringBody fuel rest''
                    pure (Char.ofNat n :: s, r)
            else
              match
                (if e = '"' then some '"'
                 else if e = '\\' then some '\\'
                 else if e = '/' then some '/'
                 else if e = 'b' then some (Char.ofNat 8)
                 else if e = 'f' then some (Char.ofNat 12)
                 else if e = 'n' then some (Char.ofNat 10)
                 else if e = 'r' then some (Char.ofNat 13)
                 else if e = 't' then some (Char.ofNat 9)
                 else none) with
              | none => none
              | some d => do
                  let (s, r) ← parseStringBody fuel rest'
                  pure (d :: s, r)
      else do
        let (s, r) ← parseStringBody fuel rest
        pure (c :: s, r)

/-- Parse a run of decimal digits into a natural number. -/
def parseDigits (acc : Nat) : Str → Option (Nat × Str)
  | [] => some (acc, [])
  | c :: rest =>
      if '0' ≤ c ∧ c ≤ '9' then
        match parseDigits (acc * 10 + (c.toNat - 48)) rest with
        | some r => some r
        | none => none
      else some (acc, c :: rest)

/-- Parse an integer literal (an optional minus sign then digits). -/
def parseIntLit : Str → Option (Int × Str)
  | [] => none
  | c :: rest =>
      if c = '-' then
        match rest with
        | d :: _ =>
            if '0' ≤ d ∧ d ≤ '9' then
              (parseDigits 0 rest).map (fun p => (-(p.1 : Int), p.2))
            else none
        | [] => none
      else if '0' ≤ c ∧ c ≤ '9' then
        (parseDigits 0 (c :: rest)).map (fun p => ((p.1 : Int), p.2))
      else none

mutual

/-- Model of `json.loads` (restricted to the strings, integers, arrays
and objects of `JVal`; `fuel` bounds the recursion depth and is chosen
larger than the input length at every call site). -/
def parseJVal : Nat → Str → Option (JVal × Str)
  | 0, _ => none
  | fuel + 1, s =>
      match skipWs s with
      | [] => none
      | c :: rest =>
          if c = '"' then
            (parseStringBody (rest.length + 1) rest).map
              (fun p => (.str p.1, p.2))
          else if c = '[' then
            match skipWs rest with
            | ']' :: rest' => some (.arr [], rest')
            | other => (parseJValList fuel other).map
                (fun p => (.arr p.1, p.2))
          else if c = '\x7b' then
            match skipWs rest with
            | '\x7d' :: rest' => some (.obj [], rest')
            | other => (parseJValMembers fuel other).map
                (fun p => (.obj p.1, p.2))
          else
            (parseIntLit (c :: rest)).map (fun p => (.num p.1, p.2))

/-- Comma-separated JSON values up to a closing `]`. -/
def parseJValList : Nat → Str → Option (List JVal × Str)
  | 0, _ => none
  | fuel + 1, s => do
      let (v, rest) ← parseJVal fuel s
      match skipWs rest with
      | ',' :: rest' => do
          let (vs, r) ← parseJValList fuel rest'
          pure (v :: vs, r)
      | ']' :: rest' => pure ([v], rest')
      | _ => none

/-- Comma-separated `"key": value` members up to a closing brace. -/
def parseJValMembers : Nat → Str → Option (List (Str × JVal) × Str)
  | 0, _ => none
  | fuel + 1, s =>
      match skipWs s with
      | '"' :: rest => do
          let (k, rest') ← parseStringBody (rest.length + 1) rest
          match skipWs rest' with
          | ':' :: rest'' => do
              let (v, r) ← parseJVal fuel rest''
              match skipWs r with
              | ',' :: r' => do
                  let (kvs, r'') ← parseJValMembers fuel r'
                  pure ((k, v) :: kvs, r'')
              | '\x7d' :: r' => pure ([(k, v)], r')
              | _ => none
          | _ => none
      | _ => none

end

/-- Model of `json.loads` on a whole document: the parse must consume
the input up to trailing whitespace. -/
def jsonLoads (s : Str) : Option JVal :=
  match parseJVal (s.length + 1) s with
  | some (v, rest) => if skipWs rest = [] then some v else none
  | none => none

/-! ## UTF-8 and the urlsafe base64 codec

Models of Python's `str.encode()` / `bytes.decode()` (UTF-8) and of
`base64.urlsafe_b64encode` / `base64.urlsafe_b64decode`, as used by
`JWTAuthHandler._base64_encode` / `_base64_decode`. -/

/-- UTF-8 encoding of one character. -/
def utf8EncodeChar (c : Char) : Bytes :=
  let n := c.toNat
  if n < 0x80 then [n]
  else if n < 0x800 then [0xc0 + n / 64, 0x80 + n % 64]
  else if n < 0x10000 then
    [0xe0 + n / 4096, 0x80 + n / 64 % 64, 0x80 + n % 64]
  else
    [0xf0 + n / 262144, 0x80 + n / 4096 % 64, 0x80 + n / 64 % 64,
     0x80 + n % 64]

/-- Model of `str.encode()`: UTF-8 encoding. -/
def utf8Encode (s : Str) : Bytes := s.flatMap utf8EncodeChar

/-- Model of `bytes.decode()`: UTF-8 decoding, failing on malformed
input as Python raises `UnicodeDecodeError`. -/
def utf8Decode : Bytes → Option Str
  | [] => some []
  | b :: rest =>
      if b < 0x80 then
        (utf8Decode rest).map (fun s => Char.ofNat b :: s)
      else if 0xc2 ≤ b ∧ b ≤ 0xdf then
        match rest with
        | b2 :: rest' =>
            if 0x80 ≤ b2 ∧ b2 ≤ 0xbf then
              (utf8Decode rest').map
                (fun s => Char.ofNat ((b - 0xc0) * 64 + (b2 - 0x80)) :: s)
            else none
        | _ => none
      else if 0xe0 ≤ b ∧ b ≤ 0xef then
        match rest with
        | b2 :: b3 :: rest' =>
            if (0x80 ≤ b2 ∧ b2 ≤ 0xbf) ∧ (0x80 ≤ b3 ∧ b3 ≤ 0xbf) then
              let n := (b - 0xe0) * 4096 + (b2 - 0x80) * 64 + (b3 - 0x80)
              if n < 0x800 ∨ (0xd800 ≤ n ∧ n ≤ 0xdfff) then none
              else (utf8Decode rest').map (fun s => Char.ofNat n :: s)
            else none
        | _ => none
      else if 0xf0 ≤ b ∧ b ≤ 0xf4 then
        match rest with
        | b2 :: b3 :: b4 :: rest' =>
            if (0x80 ≤ b2 ∧ b2 ≤ 0xbf) ∧ (0x80 ≤ b3 ∧ b3 ≤ 0xbf) ∧
                (0x80 ≤ b4 ∧ b4 ≤ 0xbf) then
              let n := (b - 0xf0) * 262144 + (b2 - 0x80) * 4096 +
                (b3 - 0x80) * 64 + (b4 - 0x80)
              if n < 0x10000 ∨ 0x110000 ≤ n then none
              else (utf8Decode rest').map (fun s => Char.ofNat n :: s)
            else none
        | _ => none
      else none

/-- The urlsafe base64 alphabet (`-` and `_` in place of `+` and `/`). -/
def b64Alphabet : Str :=
  "ABCDEFGHIJKLMNOPQRSTUVWXYZabcdefghijklmnopqrstuvwxyz0123456789-_".data

/-- The alphabet character for a 6-bit value (reduced modulo 64). -/
def b64Char (n : Nat) : Char := b64Alphabet.getD (n % 64) 'A'

/-- Urlsafe base64 encoding with `=` padding
(`base64.urlsafe_b64encode`). -/
def b64Encode : Bytes → Str
  | [] => []
  | [a] => [b64Char (a / 4), b64Char (a % 4 * 16), '=', '=']
  | [a, b] => [b64Char (a / 4), b64Char (a % 4 * 16 + b / 16),
      b64Char (b % 16 * 4), '=']
  | a :: b :: c :: rest =>
      b64Char (a / 4) :: b64Char (a % 4 * 16 + b / 16) ::
        b64Char (b % 16 * 4 + c / 64) :: b64Char (c % 64) ::
        b64Encode rest

/-- Index of a character in the urlsafe base64 alphabet. -/
def b64CharVal (c : Char) : Option Nat :=
  if 'A' ≤ c ∧ c ≤ 'Z' then some (c.toNat - 65)
  else if 'a' ≤ c ∧ c ≤ 'z' then some (c.toNat - 97 + 26)
  else if '0' ≤ c ∧ c ≤ '9' then some (c.toNat - 48 + 52)
  else if c = '-' then some 62
  else if c = '_' then some 63
  else none

/-- Urlsafe base64 decoding of a correctly padded input
(`base64.urlsafe_b64decode`); invalid input fails as Python raises. -/
def b64DecodePadded : Str → Option Bytes
  | [] => some []
  | a :: b :: '=' :: '=' :: rest => do
      let va ← b64CharVal a
      let vb ← b64CharVal b
      if rest = [] then some [va * 4 + vb / 16] else none
  | a :: b :: c :: '=' :: rest => do
      let va ← b64CharVal a
      let vb ← b64CharVal b
      let vc ← b64CharVal c
      if rest = [] then some [va * 4 + vb / 16, vb % 16 * 16 + vc / 4]
      else none
  | a :: b :: c :: d :: rest => do
      let va ← b64CharVal a
      let vb ← b64CharVal b
      let vc ← b64CharVal c
      let vd ← b64CharVal d
      let tail ← b64DecodePadded rest
      pure ((va * 4 + vb / 16) :: (vb % 16 * 16 + vc / 4) ::
        (vc % 4 * 64 + vd) :: tail)
  | _ => none

/-! ## JWT authentication handler (`auth/jwt_auth.py`)

`JWTAuthHandler` implements HS256 JSON Web Tokens directly on top of
the codecs above.  The HMAC-SHA256 primitive
(`hmac.new(key, msg, hashlib.sha256).digest()`) is an external
standard-library call and is passed in as a function parameter
`hmacF`; every theorem below holds for an arbitrary such function. -/

structure JWTAuthHandler where
  secretKey : Str
  algorithm : Str
  verifyExp : Bool
  verifyIat : Bool
  leeway : Int

/-- `JWTAuthHandler.__init__`: constructing the handler with any
algorithm other than HS256 raises `ValueError`. -/
def createJwtAuth (secretKey : Str) (algorithm : Str)
    (verifyExp verifyIat : Bool) (leeway : Int) :
    Except String JWTAuthHandler :=
  if algorithm = "HS256".data then
    .ok ⟨secretKey, algorithm, verifyExp, verifyIat, leeway⟩
  else .error "Only HS256 algorithm is currently supported"

/-- `encoded.rstrip('=')`, as `_base64_encode(..., padding=False)`. -/
def rstripEq (s : Str) : Str :=
  (s.reverse.dropWhile (fun c => c = '=')).reverse

/-- `JWTAuthHandler._create_signature`: base64url-encode the
HMAC-SHA256 of the message under the secret key, without padding. -/
def createSignature (hmacF : Bytes → Bytes → Bytes)
    (h : JWTAuthHandler) (message : Str) : Str :=
  rstripEq (b64Encode (hmacF (utf8Encode h.secretKey)
    (utf8Encode message)))

/-- The padding restoration performed by `_base64_decode`. -/
def addB64Padding (s : Str) : Str :=
  if s.length % 4 = 0 then s
  else s ++ List.replicate (4 - s.length % 4) '='

/-- `JWTAuthHandler._base64_decode`: restore padding, base64-decode,
UTF-8-decode. -/
def jwtBase64Decode (s : Str) : Option Str :=
  (b64DecodePadded (addB64Padding s)).bind utf8Decode

/-- The JWT header dictionary built by `_encode_jwt`. -/
def jwtHeader (h : JWTAuthHandler) : JVal :=
  .obj [("typ".data, .str "JWT".data), ("alg".data, .str h.algorithm)]

/-- `JWTAuthHandler._encode_jwt`: `base64url(header).base64url(payload)`
followed by the signature over that message. -/
def encodeJwt (hmacF : Bytes → Bytes → Bytes) (h : JWTAuthHandler)
    (payload : JVal) : Str :=
  let headerEncoded := b64Encode (utf8Encode (jsonDumps (jwtHeader h)))
  let payloadEncoded := b64Encode (utf8Encode (jsonDumps payload))
  let message := headerEncoded ++ '.' :: payloadEncoded
  message ++ '.' :: createSignature hmacF h message

/-- The payload dictionary built by `generate_token` (in insertion
order `sub`, `permissions`, `iat`, `exp`), before merging any
additional claims. -/
def tokenPayload (userId : Str) (permissions : List Str) (now : Int)
    (expiresIn : Int) : JVal :=
  .obj [("sub".data, .str userId),
        ("permissions".data, .arr (permissions.map .str)),
        ("iat".data, .num now),
        ("exp".data, .num (now + expiresIn))]

/-- `JWTAuthHandler.generate_token` (without additional claims; `now`
stands for `int(time.time())`). -/
def generateToken (hmacF : Bytes → Bytes → Bytes) (h : JWTAuthHandler)
    (userId : Str) (permissions : List Str) (now : Int)
    (expiresIn : Int) : Str :=
  encodeJwt hmacF h (tokenPayload userId permissions now expiresIn)

/-- Dictionary lookup inside a decoded JSON payload (`payload.get` /
`payload[...]`; the payloads reaching these operations are objects). -/
def jlookup (v : JVal) (k : Str) : Option JVal :=
  match v with
  | .obj kvs => alookup kvs k
  | _ => none

/-- The `iat` verification at the end of `_decode_jwt` (raises
`ValueError` when the token appears used before issued; a non-numeric
claim would raise `TypeError` in Python at the comparison, modelled as
an error as well). -/
def checkIatClaim (h : JWTAuthHandler) (now : ℚ) (payload : JVal) :
    Except String JVal :=
  if h.verifyIat ∧ (jlookup payload "iat".data).isSome then
    match jlookup payload "iat".data with
    | some (.num t) =>
        if now < (t : ℚ) - (h.leeway : ℚ) then
          .error "JWT token used before issued"
        else .ok payload
    | _ => .error "TypeError"
  else .ok payload

/-- The time-based-claim verification at the end of `_decode_jwt`:
the `exp` check precedes the `iat` check and each raises `ValueError`
on violation. -/
def checkTimeClaims (h : JWTAuthHandler) (now : ℚ) (payload : JVal) :
    Except String JVal :=
  if h.verifyExp ∧ (jlookup payload "exp".data).isSome then
    match jlookup payload "exp".data with
    | some (.num t) =>
        if now > (t : ℚ) + (h.leeway : ℚ) then
          .error "JWT token has expired"
        else checkIatClaim h now payload
    | _ => .error "TypeError"
  else checkIatClaim h now payload

/-- `JWTAuthHandler._decode_jwt` (`now` stands for `time.time()`):
split on `.` into exactly three segments, recompute and compare the
signature (`hmac.compare_digest` is equality with constant-time
evaluation), decode the payload, verify time-based claims. -/
def decodeJwt (hmacF : Bytes → Bytes → Bytes) (h : JWTAuthHandler)
    (now : ℚ) (token : Str) : Except String JVal :=
  match splitOnChar '.' token with
  | [headerB64, payloadB64, signatureB64] =>
      let message := headerB64 ++ '.' :: payloadB64
      let expectedSignature := createSignature hmacF h message
      if signatureB64 = expectedSignature then
        match jwtBase64Decode payloadB64 with
        | none => .error "base64 or UTF-8 decoding failed"
        | some payloadStr =>
            match jsonLoads payloadStr with
            | none => .error "json.JSONDecodeError"
            | some payload => checkTimeClaims h now payload
      else .error "Invalid JWT signature"
  | _ => .error "Invalid JWT format"

/-! ## Tool data model (`core/types.py`) -/

/-- One content item of an `MCPToolResult`: the dictionaries appended
by `add_text`, `add_json`, `add_binary` and `add_error`, distinguished
by their `"type"` tag. -/
inductive ContentItem : Type where
  | text (text : Str)
  | json (data : JVal)
  | binary (data : Bytes) (mimeType : String)
  | error (code : String) (message : Str) (data : JVal)

/-- The `"type"` field of a content item. -/
def ContentItem.typeTag : ContentItem → String
  | .text _ => "text"
  | .json _ => "json"
  | .binary _ _ => "binary"
  | .error _ _ _ => "error"

/-- The `"text"` field of a content item (`item.get("text", ...)`):
only the dictionaries built by `add_text` carry one. -/
def ContentItem.textField : ContentItem → Option Str
  | .text t => some t
  | _ => none

/-- Whether the item carries the `"error"` type tag. -/
def ContentItem.isErrorItem (c : ContentItem) : Bool :=
  c.typeTag = "error"

/-- `MCPToolResult`: an ordered content list plus a metadata map. -/
structure MCPToolResult : Type where
  content : List ContentItem := []
  metadata : List (String × String) := []

/-- `MCPToolResult()`. -/
def MCPToolResult.empty : MCPToolResult := {}

/-- `MCPToolResult.add_text`. -/
def MCPToolResult.addText (r : MCPToolResult) (text : Str) :
    MCPToolResult :=
  { r with content := r.content ++ [.text text] }

/-- `MCPToolResult.add_json`: stores the data under the `"data"` key
(and no `"text"` key). -/
def MCPToolResult.addJson (r : MCPToolResult) (data : JVal) :
    MCPToolResult :=
  { r with content := r.content ++ [.json data] }

/-- `MCPToolResult.add_binary`. -/
def MCPToolResult.addBinary (r : MCPToolResult) (data : Bytes)
    (mimeType : String) : MCPToolResult :=
  { r with content := r.content ++ [.binary data mimeType] }

/-- `MCPToolResult.add_error` (defaulting `data` to `{}` is the
caller's concern; the registry passes no data). -/
def MCPToolResult.addError (r : MCPToolResult) (code : String)
    (message : Str) (data : JVal := .obj []) : MCPToolResult :=
  { r with content := r.content ++ [.error code message data] }

/-- `MCPToolResult.set_metadata`. -/
def MCPToolResult.setMetadata (r : MCPToolResult) (k v : String) :
    MCPToolResult :=
  { r with metadata := aset r.metadata k v }

/-- `ExecutionContext` (the dictionary form produced by `to_dict()` is
not distinguished from the dataclass in this model). -/
structure ExecutionContext : Type where
  requestId : String
  userId : Option String := none
  sessionId : Option String := none
  metadata : List (String × String) := []

/-! ## Python exceptions crossing the modelled boundaries -/

/-- The exceptions raised by the modelled code paths.  `exc` stands
for any other `Exception` a tool body may raise. -/
inductive PyExc : Type where
  | toolNotFound (toolName : String)
  | rateLimitExceeded (limit : Int) (window : Int)
  | validationError (message : Str)
  | valueError (message : Str)
  | unboundLocalError (varName : String)
  | exc (message : Str)

/-- Python's `str(e)` for the exceptions above (`GrpcMcpError.__str__`
renders `message`; `UnboundLocalError` names the variable). -/
def PyExc.pyStr : PyExc → Str
  | .toolNotFound n => ("Tool not found: " ++ n).data
  | .rateLimitExceeded l w =>
      ("Rate limit exceeded: " ++ toString l ++ " requests per " ++
        toString w ++ " seconds").data
  | .validationError m => m
  | .valueError m => m
  | .unboundLocalError v =>
      ("cannot access local variable '" ++ v ++
        "' where it is not associated with a value").data
  | .exc m => m

/-- Evaluating a Python local variable: raises `UnboundLocalError`
when the variable has not been assigned on the executed path. -/
def readLocal {α : Type} (varName : String) : Option α → Except PyExc α
  | some v => .ok v
  | none => .error (.unboundLocalError varName)

/-! ## Tool registry (`core/registry.py`) -/

/-- Tool argument maps (`Dict[str, Any]`, with JSON-like values). -/
abbrev Args := List (String × JVal)

/-- The invocable body of a registered tool.  A Python call either
returns an `MCPToolResult` or raises; both outcomes are captured by
`Except`.  (The declaration-layer adapter of `core/decorators.py` is
one such callable; its argument validation runs outside its own
`try`/`except`, so a validation failure surfaces here as an
`Except.error`.) -/
abbrev ToolExecFn := Args → ExecutionContext → Except PyExc MCPToolResult

/-- A registered tool (`registry.Tool`).  `__post_init__` validation
happens at construction, before `register` is reached. -/
structure Tool : Type where
  name : String
  description : String
  execute : ToolExecFn
  parameters : List (String × JVal) := []
  requiresAuth : Bool := false
  rateLimit : Option Int := none
  metadata : List (String × String) := []
  supportsStreaming : Bool := false

/-- The registry's embedded simple rate limiter: per-tool timestamp
lists (`defaultdict(list)`). -/
abbrev SimpleRateRequests := List (String × List ℚ)

/-- `registry.RateLimiter.check_rate_limit`: drop timestamps outside
the window, reject once the count reaches the limit, record the call
otherwise. -/
def simpleCheckRateLimit (requests : SimpleRateRequests)
    (toolName : String) (limit : Int) (window : ℚ) (now : ℚ) :
    Bool × SimpleRateRequests :=
  let recent := ((alookup requests toolName).getD []).filter
    (fun t => now - t < window)
  if limit ≤ (recent.length : Int) then
    (false, aset requests toolName recent)
  else
    (true, aset requests toolName (recent ++ [now]))

/-- `ToolRegistry` (one instance; the process-wide singleton is just a
distinguished instance). -/
structure ToolRegistry : Type where
  tools : List (String × Tool) := []
  rateRequests : SimpleRateRequests := []
  healthy : Bool := true

/-- `ToolRegistry.register`: a hard error when the name is already
present, otherwise store the tool. -/
def ToolRegistry.register (reg : ToolRegistry) (tool : Tool) :
    Except PyExc ToolRegistry :=
  if amem reg.tools tool.name then
    .error (.valueError ("Tool already registered: " ++ tool.name).data)
  else
    .ok { reg with tools := aset reg.tools tool.name tool }

/-- `ToolRegistry.unregister`: removes the binding when present. -/
def ToolRegistry.unregister (reg : ToolRegistry) (toolName : String) :
    ToolRegistry :=
  { reg with tools := reg.tools.filter (fun kv => kv.1 ≠ toolName) }

/-- `ToolRegistry.get_tool`. -/
def ToolRegistry.getTool (reg : ToolRegistry) (name : String) :
    Option Tool :=
  alookup reg.tools name

/-- `isinstance(result, MCPToolResult)` — trivially true in the typed
model. -/
def isToolResultInstance (_ : MCPToolResult) : Bool := true

/-- The `try`/`except` body of `execute_tool` around
`await tool.execute(...)`.  The `except Exception as e:` handler
evaluates `isinstance(e, Exception) and not isinstance(result,
MCPToolResult)`; on the exceptional path the local `result` was never
assigned, so the evaluation itself raises `UnboundLocalError` out of
the handler. -/
def execBody (tool : Tool) (arguments : Args)
    (context : ExecutionContext) : Except PyExc MCPToolResult :=
  match tool.execute arguments context with
  | .ok result => .ok result
  | .error e =>
      -- `if isinstance(e, Exception) and not isinstance(result, MCPToolResult):`
      match readLocal "result" (Option.none (α := MCPToolResult)) with
      | .error e2 => .error e2
      | .ok result =>
          -- dead code: with `result` bound the handler would wrap `e`
          if ¬ isToolResultInstance result then
            .ok (MCPToolResult.empty.addError "TOOL_EXECUTION_ERROR"
              e.pyStr)
          else .error e

/-- `ToolRegistry.execute_tool` (`now` stands for `time.time()` inside
the rate limiter). -/
def ToolRegistry.executeTool (reg : ToolRegistry) (toolName : String)
    (arguments : Args) (context : ExecutionContext) (now : ℚ) :
    Except PyExc MCPToolResult × ToolRegistry :=
  match reg.getTool toolName with
  | none => (.error (.toolNotFound toolName), reg)
  | some tool =>
      -- `if tool.rate_limit:` — both `None` and `0` are falsy
      if tool.rateLimit.getD 0 ≠ 0 then
        let lim := tool.rateLimit.getD 0
        let (ok, requests') :=
          simpleCheckRateLimit reg.rateRequests toolName lim 60 now
        let reg' := { reg with rateRequests := requests' }
        if ok then (execBody tool arguments context, reg')
        else (.error (.rateLimitExceeded lim 60), reg')
      else
        (execBody tool arguments context, reg)

/-! ## Wire conversion of results (`core/server.py`) -/

/-- The protobuf `Content` message (`oneof` of text, json, binary).
The `Struct`-conversion `_dict_to_struct` carries the same JSON tree
and is modelled as the identity embedding. -/
inductive PbContent : Type where
  | text (text : Str)
  | json (data : JVal)
  | binary (data : Bytes) (mimeType : String)

/-- The protobuf `ToolResult` message. -/
structure PbToolResult : Type where
  content : List PbContent
  metadata : List (String × String)

/-- The `"data"` field of a json item (`content["data"]`). -/
def ContentItem.jsonDataField : ContentItem → JVal
  | .json d => d
  | _ => .obj []

/-- The `"data"` field of a binary item. -/
def ContentItem.binaryDataField : ContentItem → Bytes
  | .binary d _ => d
  | _ => []

/-- The `"mime_type"` field of a binary item
(`content.get("mime_type", "application/octet-stream")`). -/
def ContentItem.mimeTypeField : ContentItem → String
  | .binary _ m => m
  | _ => "application/octet-stream"

/-- The loop body of `_convert_result_to_pb`: the `if`/`elif` chain
over the `"type"` tag has branches for `"text"`, `"json"` and
`"binary"` only; any other item is not appended. -/
def convertContentFold (pbContents : List PbContent) (c : ContentItem) :
    List PbContent :=
  if c.typeTag = "text" then
    pbContents ++ [PbContent.text ((c.textField).getD [])]
  else if c.typeTag = "json" then
    pbContents ++ [PbContent.json c.jsonDataField]
  else if c.typeTag = "binary" then
    pbContents ++ [PbContent.binary c.binaryDataField c.mimeTypeField]
  else pbContents

/-- `MCPServicer._convert_result_to_pb`. -/
def convertResultToPb (result : MCPToolResult) : PbToolResult :=
  { content := result.content.foldl convertContentFold [],
    metadata := result.metadata }

/-- The per-item conversion applied by `_convert_result_to_pb` to the
items it keeps. -/
def convertContentItem (c : ContentItem) : PbContent :=
  match c with
  | .text t => .text t
  | .json d => .json d
  | .binary d m => .binary d m
  | .error _ _ _ => .text []

/-! ## Input sanitizer (`security/input_sanitizer.py`)

The sanitizer walks arbitrary Python values, modelled by `PyValue`.
Three string primitives it calls are external:
`unicodedata.normalize('NFC', ·)`, the compiled dangerous-content
regular expression's `search`, and `html.escape`.  They are bundled
into `StringExternals` and passed as a parameter; theorems either hold
for arbitrary externals or instantiate `asciiExternals` below. -/

/-- Python values reaching `InputSanitizer.sanitize_input`.  `float`
is an exact rational (`nan`/`inf` are the IEEE specials, checked for
explicitly by `_sanitize_number`); dictionary keys are strings, as
`str(key)` makes them. -/
inductive PyValue : Type where
  | none
  | bool (b : Bool)
  | int (n : Int)
  | float (q : ℚ)
  | nan
  | inf (negative : Bool)
  | str (s : Str)
  | list (xs : List PyValue)
  | dict (kvs : List (Str × PyValue))

/-- `SanitizationConfig` with its source defaults. -/
structure SanitizationConfig : Type where
  maxStringLength : Nat := 10000
  maxJsonDepth : Nat := 10
  maxArrayLength : Nat := 1000
  maxDictKeys : Nat := 100
  allowHtml : Bool := false
  allowScripts : Bool := false
  stripControlChars : Bool := true
  normalizeUnicode : Bool := true

/-- The external string primitives used by `_sanitize_string`. -/
structure StringExternals : Type where
  normalizeNfc : Str → Str
  dangerousSearch : Str → Bool
  htmlEscape : Str → Str

/-- `InputSanitizer._remove_control_chars`: keep code points ≥ 32 plus
tab, newline and carriage return. -/
def removeControlChars (value : Str) : Str :=
  value.filter (fun c =>
    32 ≤ c.toNat ∨ c = Char.ofNat 9 ∨ c = Char.ofNat 10 ∨
      c = Char.ofNat 13)

/-- Model of Python's `html.escape` (escapes `&`, `<`, `>`, `"`, `'`),
used as the `htmlEscape` external. -/
def htmlEscapeImpl (s : Str) : Str :=
  s.flatMap (fun c =>
    if c = '&' then "&amp;".data
    else if c = '<' then "&lt;".data
    else if c = '>' then "&gt;".data
    else if c = '"' then "&quot;".data
    else if c = '\'' then "&#x27;".data
    else [c])

/-- Whether a string contains any of the dangerous substrings the
configured default patterns react to.  This implements the regular
expression `search` for inputs made of the markers themselves; on the
plain alphanumeric strings appearing in the concrete theorems below it
agrees with the compiled pattern (no pattern matches such strings). -/
def dangerousSearchImpl (s : Str) : Bool :=
  let low := s.map Char.toLower
  ["<script".data, "javascript:".data, "vbscript:".data,
    "<iframe".data, "<object".data, "<embed".data, "<form".data,
    "<input".data].any (fun pat => containsSub pat low)

/-- Concrete externals faithful on the ASCII strings used in the
closed theorems below: NFC normalization is the identity on ASCII,
`htmlEscapeImpl` is exactly `html.escape`, and `dangerousSearchImpl`
agrees with the compiled default pattern set on such strings. -/
def asciiExternals : StringExternals :=
  ⟨fun s => s, dangerousSearchImpl, htmlEscapeImpl⟩

/-- `InputSanitizer._sanitize_string`. -/
def sanitizeString (ext : StringExternals) (cfg : SanitizationConfig)
    (value : Str) (path : Str) : Except Str Str :=
  if cfg.maxStringLength < value.length then
    .error (("String too long at ").data ++ path)
  else
    let value := if cfg.stripControlChars then removeControlChars value
      else value
    let value := if cfg.normalizeUnicode then ext.normalizeNfc value
      else value
    if ext.dangerousSearch value ∧ ¬ cfg.allowScripts then
      .error (("Dangerous content detected at ").data ++ path)
    else
      .ok (if ¬ cfg.allowHtml then ext.htmlEscape value else value)

/-- `InputSanitizer._sanitize_number` (booleans pass through before
this is reached; `10**15` is the magnitude bound). -/
def sanitizeNumber (value : PyValue) (path : Str) : Except Str PyValue :=
  match value with
  | .bool b => .ok (.bool b)
  | .nan => .error (("NaN value at ").data ++ path)
  | .inf _ => .error (("Infinite value at ").data ++ path)
  | .int n =>
      if 10 ^ 15 < n.natAbs then
        .error (("Number too large at ").data ++ path)
      else .ok (.int n)
  | .float q =>
      if (10 ^ 15 : ℚ) < |q| then
        .error (("Number too large at ").data ++ path)
      else .ok (.float q)
  | v => .ok v

mutual

/-- `InputSanitizer.sanitize_input`: type dispatch.  Note that the
dictionary branch calls `_sanitize_dict(data, path)` with the *default*
depth `0` — nesting depth restarts whenever a dictionary is reached
through this dispatch (in particular inside an array). -/
def sanitizeInput (ext : StringExternals) (cfg : SanitizationConfig)
    (data : PyValue) (path : Str) : Except Str PyValue :=
  match data with
  | .none => .ok .none
  | .str s => (sanitizeString ext cfg s path).map .str
  | .bool b => sanitizeNumber (.bool b) path
  | .int n => sanitizeNumber (.int n) path
  | .float q => sanitizeNumber (.float q) path
  | .nan => sanitizeNumber .nan path
  | .inf b => sanitizeNumber (.inf b) path
  | .list xs => (sanitizeArray ext cfg xs path).map .list
  | .dict kvs => (sanitizeDict ext cfg kvs path 0).map .dict

/-- `InputSanitizer._sanitize_array`: length check, then per-element
recursion with an indexed path suffix. -/
def sanitizeArray (ext : StringExternals) (cfg : SanitizationConfig)
    (xs : List PyValue) (path : Str) : Except Str (List PyValue) :=
  if cfg.maxArrayLength < xs.length then
    .error (("Array too long at ").data ++ path)
  else sanitizeArrayItems ext cfg xs path 0

/-- The element loop of `_sanitize_array` (`i` is the running index
used in the path). -/
def sanitizeArrayItems (ext : StringExternals) (cfg : SanitizationConfig)
    (xs : List PyValue) (path : Str) (i : Nat) :
    Except Str (List PyValue) :=
  match xs with
  | [] => .ok []
  | x :: rest => do
      let x' ← sanitizeInput ext cfg x
        (path ++ '[' :: intToStr i ++ [']'])
      let rest' ← sanitizeArrayItems ext cfg rest path (i + 1)
      pure (x' :: rest')

/-- `InputSanitizer._sanitize_dict`: depth and key-count checks, then
per-entry sanitization; a value that is itself a dictionary recurses
with `depth + 1`, any other value goes back through `sanitize_input`. -/
def sanitizeDict (ext : StringExternals) (cfg : SanitizationConfig)
    (kvs : List (Str × PyValue)) (path : Str) (depth : Nat) :
    Except Str (List (Str × PyValue)) :=
  if cfg.maxJsonDepth < depth then
    .error (("JSON too deep at ").data ++ path)
  else if cfg.maxDictKeys < kvs.length then
    .error (("Dictionary too many keys at ").data ++ path)
  else sanitizeDictItems ext cfg kvs path depth []

/-- The entry loop of `_sanitize_dict`, accumulating
`sanitized[sanitized_key] = sanitized_val` assignments in order. -/
def sanitizeDictItems (ext : StringExternals) (cfg : SanitizationConfig)
    (kvs : List (Str × PyValue)) (path : Str) (depth : Nat)
    (acc : List (Str × PyValue)) : Except Str (List (Str × PyValue)) :=
  match kvs with
  | [] => .ok acc
  | (k, v) :: rest => do
      let k' ← sanitizeString ext cfg k (path ++ '.' :: k)
      let v' ←
        match v with
        | .dict inner => (sanitizeDict ext cfg inner (path ++ '.' :: k)
            (depth + 1)).map .dict
        | other => sanitizeInput ext cfg other (path ++ '.' :: k)
      sanitizeDictItems ext cfg rest path depth (aset acc k' v')

end

/-! ## Rate limiter (`security/rate_limiter.py`)

Time is an explicit rational parameter (`now` stands for each
`time.time()` call); token counts are exact rationals. -/

/-- `TokenBucket` state. -/
structure TokenBucket : Type where
  capacity : ℚ
  tokens : ℚ
  refillRate : ℚ
  lastRefill : ℚ

/-- `TokenBucket.__init__(capacity, refill_rate)` at time `now`. -/
def TokenBucket.create (capacity : ℚ) (refillRate : ℚ) (now : ℚ) :
    TokenBucket :=
  ⟨capacity, capacity, refillRate, now⟩

/-- `TokenBucket._refill`: lazy continuous refill capped at capacity. -/
def TokenBucket.refill (b : TokenBucket) (now : ℚ) : TokenBucket :=
  { b with
    tokens := min b.capacity (b.tokens + (now - b.lastRefill) * b.refillRate),
    lastRefill := now }

/-- `TokenBucket.consume`: refill, then take `tokens` if available. -/
def TokenBucket.consume (b : TokenBucket) (tokens : ℚ) (now : ℚ) :
    Bool × TokenBucket :=
  let b := b.refill now
  if tokens ≤ b.tokens then (true, { b with tokens := b.tokens - tokens })
  else (false, b)

/-- `TokenBucket.get_wait_time`. -/
def TokenBucket.getWaitTime (b : TokenBucket) (tokens : ℚ) (now : ℚ) :
    ℚ × TokenBucket :=
  let b := b.refill now
  if tokens ≤ b.tokens then (0, b)
  else ((tokens - b.tokens) / b.refillRate, b)

/-- `RateLimitConfig` with its source defaults (before
`__post_init__`). -/
structure RateLimitConfig : Type where
  requestsPerMinute : Int := 60
  burstSize : Int := 10
  windowSize : Int := 60
  perUser : Bool := true
  perTool : Bool := false
  perIp : Bool := false
  enabled : Bool := true

/-- `RateLimitConfig.__post_init__`: clamp the burst size to the
per-minute limit. -/
def mkRateLimitConfig (c : RateLimitConfig) : RateLimitConfig :=
  if c.requestsPerMinute < c.burstSize then
    { c with burstSize := c.requestsPerMinute }
  else c

/-- `RateLimiter` state: configuration, per-key buckets, and the
refill rate computed once at construction from
`config.requests_per_minute / 60.0`. -/
structure RateLimiter : Type where
  config : RateLimitConfig
  tokenBuckets : List (String × TokenBucket) := []
  refillRate : ℚ

/-- `RateLimiter.__init__`. -/
def RateLimiter.create (config : RateLimitConfig) : RateLimiter :=
  ⟨config, [], (config.requestsPerMinute : ℚ) / 60⟩

/-- The rejection dictionary assembled by `check_rate_limit` for a
denied key. -/
structure RateLimitRejection : Type where
  key : String
  limit : Int
  window : Int
  retryAfter : ℚ
  tokensRemaining : ℚ

/-- `RateLimiter._check_key_rate_limit`: get or lazily create the
bucket (capacity from the configured burst size, rate from the stored
`refill_rate`), try to consume, compute the wait time on denial. -/
def RateLimiter.checkKeyRateLimit (st : RateLimiter) (key : String)
    (requestSize : ℚ) (now : ℚ) : (Bool × ℚ × ℚ) × RateLimiter :=
  let bucket :=
    match alookup st.tokenBuckets key with
    | some b => b
    | none => TokenBucket.create (st.config.burstSize : ℚ) st.refillRate now
  let (ok, bucket) := bucket.consume requestSize now
  if ok then
    ((true, 0, bucket.tokens),
     { st with tokenBuckets := aset st.tokenBuckets key bucket })
  else
    let (waitTime, bucket) := bucket.getWaitTime requestSize now
    ((false, waitTime, bucket.tokens),
     { st with tokenBuckets := aset st.tokenBuckets key bucket })

/-- The key list assembled by `check_rate_limit` from the configured
strategies and the identifiers present on the call. -/
def rateLimitKeys (config : RateLimitConfig) (userId toolName ipAddress :
    Option String) : List String :=
  let keys :=
    (match userId with
     | some u => if config.perUser then ["user:" ++ u] else []
     | none => []) ++
    (match toolName with
     | some t => if config.perTool then ["tool:" ++ t] else []
     | none => []) ++
    (match ipAddress with
     | some ip => if config.perIp then ["ip:" ++ ip] else []
     | none => [])
  if keys = [] then ["global"] else keys

/-- The key loop of `check_rate_limit`: every applicable key is
checked in order (consuming a token from each) until one denies. -/
def RateLimiter.checkKeys (st : RateLimiter) (keys : List String)
    (requestSize : ℚ) (now : ℚ) :
    (Bool × Option RateLimitRejection) × RateLimiter :=
  match keys with
  | [] => ((true, none), st)
  | key :: rest =>
      let ((allowed, retryAfter, remaining), st) :=
        st.checkKeyRateLimit key requestSize now
      if allowed then st.checkKeys rest requestSize now
      else
        ((false, some
          { key := key, limit := st.config.requestsPerMinute,
            window := st.config.windowSize, retryAfter := retryAfter,
            tokensRemaining := remaining }), st)

/-- `RateLimiter.check_rate_limit`. -/
def RateLimiter.checkRateLimit (st : RateLimiter)
    (userId toolName ipAddress : Option String) (requestSize : ℚ)
    (now : ℚ) : (Bool × Option RateLimitRejection) × RateLimiter :=
  if ¬ st.config.enabled then ((true, none), st)
  else
    st.checkKeys (rateLimitKeys st.config userId toolName ipAddress)
      requestSize now

/-- Python's `int()` truncation toward zero on a rational. -/
def pyInt (q : ℚ) : Int := if 0 ≤ q then ⌊q⌋ else ⌈q⌉

/-- `AdaptiveRateLimiter` state: the base limiter plus the rolling
load history (`deque(maxlen=100)`). -/
structure AdaptiveRateLimiter : Type where
  base : RateLimiter
  serverLoad : ℚ := 0
  loadHistory : List ℚ := []

/-- `AdaptiveRateLimiter.update_server_load`. -/
def AdaptiveRateLimiter.updateServerLoad (a : AdaptiveRateLimiter)
    (cpuUsage memoryUsage : ℚ) : AdaptiveRateLimiter :=
  let load := (cpuUsage + memoryUsage) / 2
  { a with
    serverLoad := load,
    loadHistory := ((a.loadHistory ++ [load]).reverse.take 100).reverse }

/-- `AdaptiveRateLimiter._get_adaptive_limit`: scale the configured
per-minute limit down by the rolling average load. -/
def AdaptiveRateLimiter.getAdaptiveLimit (a : AdaptiveRateLimiter) : Int :=
  match a.loadHistory with
  | [] => a.base.config.requestsPerMinute
  | _ =>
      let avgLoad := a.loadHistory.sum / (a.loadHistory.length : ℚ)
      if (8 : ℚ) / 10 < avgLoad then
        pyInt ((a.base.config.requestsPerMinute : ℚ) * (5 / 10))
      else if (6 : ℚ) / 10 < avgLoad then
        pyInt ((a.base.config.requestsPerMinute : ℚ) * (7 / 10))
      else if (4 : ℚ) / 10 < avgLoad then
        pyInt ((a.base.config.requestsPerMinute : ℚ) * (9 / 10))
      else a.base.config.requestsPerMinute

/-- `AdaptiveRateLimiter.check_rate_limit`: temporarily overwrite
`config.requests_per_minute` with the adaptive limit, run the base
check, and restore the original value in the `finally` block. -/
def AdaptiveRateLimiter.checkRateLimit (a : AdaptiveRateLimiter)
    (userId toolName ipAddress : Option String) (requestSize : ℚ)
    (now : ℚ) :
    (Bool × Option RateLimitRejection) × AdaptiveRateLimiter :=
  let originalLimit := a.base.config.requestsPerMinute
  let scaled :=
    { a.base with config :=
        { a.base.config with requestsPerMinute := a.getAdaptiveLimit } }
  let (result, st) :=
    scaled.checkRateLimit userId toolName ipAddress requestSize now
  (result,
   { a with base :=
      { st with config :=
          { st.config with requestsPerMinute := originalLimit } } })

/-- One `check_rate_limit` call's arguments (`now` stands for the
`time.time()` readings during the call). -/
structure RateCall : Type where
  userId : Option String := none
  toolName : Option String := none
  ipAddress : Option String := none
  requestSize : ℚ := 1
  now : ℚ := 0

/-- A sequence of `check_rate_limit` calls against a plain
`RateLimiter`, collecting the allow/deny decisions. -/
def RateLimiter.runCalls (st : RateLimiter) : List RateCall → List Bool
  | [] => []
  | c :: rest =>
      let r := st.checkRateLimit c.userId c.toolName c.ipAddress
        c.requestSize c.now
      r.1.1 :: r.2.runCalls rest

/-- A sequence of calls against an `AdaptiveRateLimiter`, each
optionally preceded by an `update_server_load` report. -/
def AdaptiveRateLimiter.runCalls (a : AdaptiveRateLimiter) :
    List (Option (ℚ × ℚ) × RateCall) → List Bool
  | [] => []
  | (loadReport, c) :: rest =>
      let a :=
        match loadReport with
        | some (cpuUsage, memoryUsage) =>
            a.updateServerLoad cpuUsage memoryUsage
        | none => a
      let r := a.checkRateLimit c.userId c.toolName c.ipAddress
        c.requestSize c.now
      r.1.1 :: r.2.runCalls rest

/-! ## A2A capability and registry model (`a2a_extensions.py`) -/

/-- `AgentStatus`. -/
inductive AgentStatus : Type where
  | active | busy | idle | maintenance | offline
deriving DecidableEq

/-- `AgentCapabilityType`. -/
inductive AgentCapabilityType : Type where
  | toolProvider | workflowOrchestrator | dataProcessor
  | apiGateway | knowledgeBase | coordinator
deriving DecidableEq

/-- `AgentCapability` (schemas and metadata carried as JSON trees). -/
structure AgentCapability : Type where
  name : String
  description : String := ""
  version : String := "1.0.0"
  capabilityType : AgentCapabilityType := .toolProvider
  inputSchema : JVal := .obj []
  outputSchema : JVal := .obj []
  requirements : List String := []
  dependencies : List String := []
  sla : Option JVal := none

/-- `AgentInfo` (endpoints and tags do not affect the modelled
operations and are carried as plain strings). -/
structure AgentInfo : Type where
  agentId : String
  name : String := ""
  description : String := ""
  version : String := "1.0.0"
  capabilities : List AgentCapability := []
  endpoints : List String := []
  status : AgentStatus := .active
  healthScore : ℚ := 1
  lastSeen : ℚ := 0
  loadMetrics : List (String × ℚ) := []
  tags : List String := []
  owner : Option String := none
  createdAt : ℚ := 0

/-- `A2AAgentRegistry` state: the id-indexed agent map and the
capability-name index. -/
structure A2AAgentRegistry : Type where
  agents : List (String × AgentInfo) := []
  capabilities : List (String × List String) := []

/-- `A2AAgentRegistry.register_agent` (the discovery callbacks have no
effect on registry state and are not modelled). -/
def A2AAgentRegistry.registerAgent (reg : A2AAgentRegistry)
    (info : AgentInfo) : A2AAgentRegistry :=
  { agents := aset reg.agents info.agentId info,
    capabilities :=
      info.capabilities.foldl (fun caps capability =>
        aset caps capability.name
          (((alookup caps capability.name).getD []) ++ [info.agentId]))
        reg.capabilities }

/-- `A2AAgentRegistry.find_agents_by_capability`: resolve the index
bucket, keeping only ids still present in the agent map. -/
def A2AAgentRegistry.findAgentsByCapability (reg : A2AAgentRegistry)
    (capabilityName : String) : List AgentInfo :=
  ((alookup reg.capabilities capabilityName).getD []).filterMap
    (fun agentId => alookup reg.agents agentId)

/-- The `cpu_usage` load metric with its `0.0` default
(`agent.load_metrics.get('cpu_usage', 0.0)`). -/
def AgentInfo.cpuUsage (a : AgentInfo) : ℚ :=
  (alookup a.loadMetrics "cpu_usage").getD 0

/-- `score_agent` inside `find_best_agent`: zero for a non-active
agent, otherwise the weighted sum of health, load and recency. -/
def scoreAgent (now : ℚ) (agent : AgentInfo) : ℚ :=
  if agent.status ≠ AgentStatus.active then 0
  else
    let healthScore := agent.healthScore
    let loadScore := 1 - agent.cpuUsage
    let recencyScore := max 0 (1 - (now - agent.lastSeen) / 300)
    healthScore * (4 / 10) + loadScore * (4 / 10) + recencyScore * (2 / 10)

/-- The requirement filter of `find_best_agent`: for each candidate,
the first capability with the requested name decides (the loop breaks
there); an agent whose capability list has no such entry is dropped. -/
def requirementFilterKeep (capabilityName : String)
    (requirements : List String) (agent : AgentInfo) : Bool :=
  match agent.capabilities.find? (fun c => c.name = capabilityName) with
  | some capability =>
      requirements.all (fun r => capability.requirements.contains r)
  | none => false

/-- The candidate list of `find_best_agent` after the (truthiness
guarded) requirement filter. -/
def bestAgentCandidates (reg : A2AAgentRegistry)
    (capabilityName : String) (requirements : Option (List String)) :
    List AgentInfo :=
  let candidates := reg.findAgentsByCapability capabilityName
  match requirements with
  | some (r :: rs) =>
      candidates.filter (requirementFilterKeep capabilityName (r :: rs))
  | _ => candidates

/-- Python's `max(xs, key=f)` on a non-empty list: the first element
attaining the maximal key (later elements replace the current best
only when strictly greater). -/
def pyMaxByKey (f : AgentInfo → ℚ) (x : AgentInfo)
    (xs : List AgentInfo) : AgentInfo :=
  xs.foldl (fun best y => if f best < f y then y else best) x

/-- `A2AAgentRegistry.find_best_agent`. -/
def A2AAgentRegistry.findBestAgent (reg : A2AAgentRegistry)
    (capabilityName : String) (requirements : Option (List String))
    (now : ℚ) : Option AgentInfo :=
  match bestAgentCandidates reg capabilityName requirements with
  | [] => none
  | x :: xs =>
      let bestAgent := pyMaxByKey (scoreAgent now) x xs
      if 0 < scoreAgent now bestAgent then some bestAgent else none

/-! ## A2A workflow orchestrator (`a2a_extensions.py`)

The orchestrator delegates each step to
`A2AAgentClient.delegate_task`; that call (lookup of the best agent
plus capability execution) is abstracted as a `DelegateFn` parameter,
so the theorems hold for every behaviour of the delegated executions.
Wall-clock bookkeeping (`total_time`) and the retry back-off sleeps
have no bearing on the modelled results and are omitted. -/

/-- `WorkflowStep`. -/
structure WorkflowStep : Type where
  stepId : String
  capabilityName : String
  arguments : Args := []
  requirements : Option (List String) := none
  dependsOn : List String := []
  timeout : ℚ := 30
  retryCount : Nat := 3

/-- `WorkflowResult` (without the wall-clock and metadata fields). -/
structure WorkflowResult : Type where
  workflowId : String
  steps : List (String × MCPToolResult)
  success : Bool
  error : Option String := none

/-- The outcome of one `delegate_task` call: a result or a raised
exception rendered by `str(e)`. -/
abbrev DelegateFn :=
  String → Args → Option (List String) → ℚ → Except String MCPToolResult

/-- A stand-in for Python's `str(...)` of a non-text, non-json content
dictionary (the `else` branch of the placeholder rendering).  The
exact text of Python's dictionary rendering (`repr` of every key and
value, including byte-string and unicode escapes) is not reproduced
here, and no theorem of this development inspects this value — the
substitution theorems state the fallback abstractly through
`renderDepContent` and are instantiated on text/json items only. -/
def pyStrOfContent (c : ContentItem) : Str :=
  match c with
  | .binary _ m => ("\x7b'type': 'binary', 'mime_type': '" ++ m ++ "'\x7d").data
  | .error code _ _ => ("\x7b'type': 'error', 'code': '" ++ code ++ "'\x7d").data
  | c => ("\x7b'type': '" ++ c.typeTag ++ "'\x7d").data

/-- The textual rendering substituted for a `{dep_id}` placeholder:
`first_content.get("text", "")` for a text item,
`first_content.get("text", "{}")` for a json item (json items carry
only a `"data"` key, so this always yields the literal two-character
string), `str(first_content)` otherwise. -/
def renderDepContent (first : ContentItem) : Str :=
  if first.typeTag = "text" then (first.textField).getD []
  else if first.typeTag = "json" then (first.textField).getD "\x7b\x7d".data
  else pyStrOfContent first

/-- The `f"{{{dep_id}}}"` placeholder for a dependency id. -/
def depPlaceholder (depId : String) : Str :=
  '\x7b' :: depId.data ++ ['\x7d']

/-- The per-argument rewrite of `_execute_workflow_step` for one
dependency: a string value containing the `{dep_id}` placeholder is
replaced (when the dependency's result has content) by the value with
the placeholder substituted, starting from the original value. -/
def substUpdate (depId : String) (depResult : MCPToolResult)
    (arguments : Args) (kv : String × JVal) : Args :=
  match kv with
  | (key, .str value) =>
      if containsSub (depPlaceholder depId) value then
        match depResult.content with
        | [] => arguments
        | firstContent :: _ =>
            aset arguments key (.str (replaceAll
              (depPlaceholder depId)
              (renderDepContent firstContent) value))
      else arguments
  | _ => arguments

/-- The value one iteration of the dependency loop leaves for an
argument (the characterization proved in the substitution theorem):
given the dependency's completed result, a qualifying original value
`v` — a string containing the placeholder, the result's content
nonempty — overwrites the accumulated value `acc` with the *original*
value rewritten for this dependency alone; otherwise `acc` is kept. -/
def substValueDep (depId : String) (depResult : MCPToolResult)
    (v acc : JVal) : JVal :=
  match v with
  | .str value =>
      if containsSub (depPlaceholder depId) value then
        match depResult.content with
        | [] => acc
        | firstContent :: _ =>
            .str (replaceAll (depPlaceholder depId)
              (renderDepContent firstContent) value)
      else acc
  | _ => acc

/-- One iteration of the dependency loop on one argument value;
dependencies without a completed result are skipped. -/
def substValueStep (completedSteps : List (String × MCPToolResult))
    (v acc : JVal) (depId : String) : JVal :=
  match alookup completedSteps depId with
  | none => acc
  | some depResult => substValueDep depId depResult v acc

/-- The final value of one argument after the whole dependency loop of
`_execute_workflow_step`: the declared dependencies are folded in
order over the original value, each qualifying one overwriting the
argument with the original value rewritten for that dependency alone —
so the last qualifying dependency wins. -/
def substValueAll (dependsOn : List String)
    (completedSteps : List (String × MCPToolResult)) (v : JVal) : JVal :=
  dependsOn.foldl (substValueStep completedSteps v) v

/-- The argument-substitution prologue of `_execute_workflow_step`:
for each declared dependency with a completed result, rewrite every
argument whose (string) value contains the placeholder, starting each
rewrite from the *original* argument value. -/
def substituteStepArguments (step : WorkflowStep)
    (completedSteps : List (String × MCPToolResult)) : Args :=
  step.dependsOn.foldl (fun arguments depId =>
    match alookup completedSteps depId with
    | none => arguments
    | some depResult =>
        step.arguments.foldl (substUpdate depId depResult) arguments)
    step.arguments

/-- The retry loop of `_execute_workflow_step` (`attempt` counts the
remaining iterations of `range(step.retry_count)`); after the last
failed attempt the last exception is re-raised, and a zero retry count
degenerates to `Exception("Max retries exceeded")`. -/
def executeStepRetry (delegate : DelegateFn) (step : WorkflowStep)
    (arguments : Args) :
    Nat → Option String → Except String MCPToolResult
  | 0, lastException => .error (lastException.getD "Max retries exceeded")
  | n + 1, _ =>
      match delegate step.capabilityName arguments step.requirements
        step.timeout with
      | .ok result => .ok result
      | .error e => executeStepRetry delegate step arguments n (some e)

/-- `A2AWorkflowOrchestrator._execute_workflow_step`. -/
def executeWorkflowStep (delegate : DelegateFn) (step : WorkflowStep)
    (completedSteps : List (String × MCPToolResult)) :
    Except String MCPToolResult :=
  executeStepRetry delegate step
    (substituteStepArguments step completedSteps) step.retryCount none

/-- Step results completed so far, keyed by step id. -/
abbrev CompletedSteps := List (String × MCPToolResult)

/-- The step map `{step.step_id: step for step in steps}` (a later
duplicate id overwrites an earlier one, as in a dict comprehension). -/
def buildStepMap (steps : List WorkflowStep) :
    List (String × WorkflowStep) :=
  steps.foldl (fun m step => aset m step.stepId step) []

/-- Whether a remaining step is ready: every dependency id already
completed. -/
def stepReady (stepMap : List (String × WorkflowStep))
    (completedSteps : CompletedSteps) (stepId : String) : Bool :=
  match alookup stepMap stepId with
  | some step => step.dependsOn.all (fun dep => amem completedSteps dep)
  | none => false

/-- Executing one wave of ready steps (the results of
`asyncio.gather(..., return_exceptions=True)` folded in order: the
first exception aborts the workflow, carrying the results recorded so
far). -/
def executeReadyWave (delegate : DelegateFn)
    (stepMap : List (String × WorkflowStep)) (initial : CompletedSteps) :
    List String → CompletedSteps → Except (String × CompletedSteps) CompletedSteps
  | [], completedSteps => .ok completedSteps
  | stepId :: rest, completedSteps =>
      match alookup stepMap stepId with
      | none => .error ("KeyError", completedSteps)
      | some step =>
          match executeWorkflowStep delegate step initial with
          | .ok result =>
              executeReadyWave delegate stepMap initial rest
                (aset completedSteps step.stepId result)
          | .error e => .error (e, completedSteps)

/-- `A2AWorkflowOrchestrator._execute_workflow_parallel`: repeatedly
execute every ready remaining step, failing with the circular-
dependency error when none is ready while steps remain. -/
def executeWorkflowParallel (delegate : DelegateFn)
    (stepMap : List (String × WorkflowStep)) (remainingSteps : List String)
    (completedSteps : CompletedSteps) :
    Except (String × CompletedSteps) CompletedSteps :=
  match hr : remainingSteps with
  | [] => .ok completedSteps
  | _ :: _ =>
      if hready : remainingSteps.filter (stepReady stepMap completedSteps)
          = [] then
        .error ("Circular dependency detected in workflow", completedSteps)
      else
        match executeReadyWave delegate stepMap completedSteps
          (remainingSteps.filter (stepReady stepMap completedSteps))
          completedSteps with
        | .error e => .error e
        | .ok completedSteps' =>
            executeWorkflowParallel delegate stepMap
              (remainingSteps.filter
                (fun stepId => ! stepReady stepMap completedSteps stepId))
              completedSteps'
termination_by remainingSteps.length
decreasing_by
  have hsplit := List.length_eq_length_filter_add
    (l := remainingSteps) (stepReady stepMap completedSteps)
  have hpos : 0 <
      (remainingSteps.filter (stepReady stepMap completedSteps)).length := by
    cases hcase : remainingSteps.filter (stepReady stepMap completedSteps) with
    | nil => exact absurd hcase hready
    | cons a as => simp [hcase]
  rw [← hr]
  omega

/-- The recursive `visit` of `_topological_sort`.  `fuel` bounds the
recursion depth; since the ids on the current path (`tempVisited`) are
distinct keys of the step map, the depth never exceeds
`stepMap.length + 1`, the value supplied by `topologicalSort`.  The
state threaded through is `(visited, result)`. -/
def topoVisit (stepMap : List (String × WorkflowStep)) :
    Nat → List String → List String → List WorkflowStep → String →
    Except String (List String × List WorkflowStep)
  | 0, _, _, _, _ => .error "recursion limit"
  | fuel + 1, visited, tempVisited, result, stepId =>
      if stepId ∈ tempVisited then .error "Circular dependency detected"
      else if stepId ∈ visited then .ok (visited, result)
      else
        match alookup stepMap stepId with
        | none => .error "KeyError"
        | some step =>
            match step.dependsOn.foldlM
              (fun (acc : List String × List WorkflowStep) depId =>
                if amem stepMap depId then
                  topoVisit stepMap fuel acc.1 (stepId :: tempVisited)
                    acc.2 depId
                else pure acc) (visited, result) with
            | .error e => .error e
            | .ok (visited', result') =>
                .ok (stepId :: visited', result' ++ [step])

/-- `A2AWorkflowOrchestrator._topological_sort`: visit every step id
in map order. -/
def topologicalSort (stepMap : List (String × WorkflowStep)) :
    Except String (List WorkflowStep) :=
  (stepMap.foldlM
    (fun (acc : List String × List WorkflowStep) kv =>
      if kv.1 ∈ acc.1 then pure acc
      else topoVisit stepMap (stepMap.length + 1) acc.1 [] acc.2 kv.1)
    ([], [])).map (fun acc => acc.2)

/-- The step loop of `_execute_workflow_sequential`. -/
def runSequential (delegate : DelegateFn) :
    List WorkflowStep → CompletedSteps →
    Except (String × CompletedSteps) CompletedSteps
  | [], completedSteps => .ok completedSteps
  | step :: rest, completedSteps =>
      match executeWorkflowStep delegate step completedSteps with
      | .ok result =>
          runSequential delegate rest (aset completedSteps step.stepId result)
      | .error e => .error (e, completedSteps)

/-- `A2AWorkflowOrchestrator._execute_workflow_sequential`: sort, then
run the steps one at a time. -/
def executeWorkflowSequential (delegate : DelegateFn)
    (stepMap : List (String × WorkflowStep))
    (completedSteps : CompletedSteps) :
    Except (String × CompletedSteps) CompletedSteps :=
  match topologicalSort stepMap with
  | .error e => .error (e, completedSteps)
  | .ok sortedSteps => runSequential delegate sortedSteps completedSteps

/-- `A2AWorkflowOrchestrator.execute_workflow`: build the step map,
run the selected mode, and fold the outcome into a `WorkflowResult`
(`success=False` with the completed prefix and the error message when
any exception was raised). -/
def executeWorkflow (delegate : DelegateFn) (workflowId : String)
    (steps : List WorkflowStep) (parallelExecution : Bool) :
    WorkflowResult :=
  let stepMap := buildStepMap steps
  let outcome :=
    if parallelExecution then
      executeWorkflowParallel delegate stepMap (stepMap.map Prod.fst) []
    else
      executeWorkflowSequential delegate stepMap []
  match outcome with
  | .ok results =>
      { workflowId := workflowId, steps := results, success := true }
  | .error (e, completedSteps) =>
      { workflowId := workflowId, steps := completedSteps,
        success := false, error := some e }

/-! ## Concrete instances used by closed theorems and witnesses -/

/-- A tool body that raises (`ValidationError`), as the
declaration-layer adapter does when `validate_parameters` rejects the
arguments — that call sits outside the adapter's own `try`. -/
def raisingExecute : ToolExecFn :=
  fun _ _ => .error (.validationError "Missing required parameter: text".data)

/-- A registered tool whose execution raises. -/
def raisingTool : Tool :=
  { name := "echo"
    description := "Echo a message"
    execute := raisingExecute
    parameters := [("text", .obj [("type".data, .str "string".data),
      ("required".data, .str "true".data)])] }

/-- A registry holding `raisingTool`. -/
def registryWithRaisingTool : ToolRegistry :=
  { tools := [("echo", raisingTool)] }

/-- A harmless registered tool used by the registry-uniqueness
witness. -/
def benignTool : Tool :=
  { name := "echo"
    description := "Echo a message"
    execute := fun _ _ => .ok MCPToolResult.empty }

/-- The execution context of the concrete calls. -/
def sampleContext : ExecutionContext := { requestId := "req-1" }

/-- A dependency result holding one structured (json) content item
`{"k": "v"}`. -/
def jsonDepResult : MCPToolResult :=
  MCPToolResult.empty.addJson (.obj [("k".data, .str "v".data)])

/-- A workflow step whose argument `x` references dependency `D`
through the placeholder `{D}`. -/
def placeholderStep : WorkflowStep :=
  { stepId := "C"
    capabilityName := "analyze"
    arguments := [("x", .str "pre \x7bD\x7d post".data)]
    dependsOn := ["D"] }

/-- A step with two declared dependencies `A` and `B` whose single
argument references both placeholders. -/
def twoDepStep : WorkflowStep :=
  { stepId := "S"
    capabilityName := "analyze"
    arguments := [("x", .str "\x7bA\x7d and \x7bB\x7d".data)]
    dependsOn := ["A", "B"] }

/-- A completed text result for dependency `A`. -/
def textResultA : MCPToolResult := MCPToolResult.empty.addText "ra".data

/-- A completed text result for dependency `B`. -/
def textResultB : MCPToolResult := MCPToolResult.empty.addText "rb".data

/-- A chain of `n` nested dictionaries (innermost empty), each keyed
by `"a"`: `chainDict 1` is `{"a": {}}` and so on; `chainDict 11` is an
object nested 11 levels deep. -/
def chainDict : Nat → PyValue
  | 0 => .dict []
  | n + 1 => .dict [("a".data, chainDict n)]

/-- The entry list of `chainDict n`. -/
def chainDictEntries : Nat → List (Str × PyValue)
  | 0 => []
  | n + 1 => [("a".data, chainDict n)]

/-- Alternating dictionary/array nesting: each level wraps the next
dictionary inside a one-element list, so `_sanitize_dict` is always
re-entered through `sanitize_input` with the default depth `0`. -/
def deepViaList : Nat → PyValue
  | 0 => .dict []
  | n + 1 => .dict [("a".data, .list [deepViaList n])]

/-- Repeated `consume(1)` calls against a bucket at a fixed time,
returning the outcomes in order. -/
def consumeRepeat (b : TokenBucket) (now : ℚ) :
    Nat → List Bool × TokenBucket
  | 0 => ([], b)
  | n + 1 =>
      let (ok, b') := b.consume 1 now
      let (oks, b'') := consumeRepeat b' now n
      (ok :: oks, b'')

/-- The two cyclically dependent steps of the cycle-detection
scenario. -/
def cycleStepA : WorkflowStep :=
  { stepId := "A", capabilityName := "capX", dependsOn := ["B"] }

/-- Second cycle step. -/
def cycleStepB : WorkflowStep :=
  { stepId := "B", capabilityName := "capX", dependsOn := ["A"] }

/-- A delegate for the concrete workflow runs (every delegated
execution succeeds with an empty result). -/
def trivialDelegate : DelegateFn := fun _ _ _ _ => .ok MCPToolResult.empty

/-- A result whose content consists solely of error items. -/
def allErrorResult : MCPToolResult :=
  (MCPToolResult.empty.addError "TOOL_EXECUTION_ERROR" "boom".data
    ).addError "TOOL_TIMEOUT" "slow".data

/-- The capability offered by the two scoring-scenario agents. -/
def capX : AgentCapability := { name := "capX" }

/-- Scoring scenario: a healthy, idle, just-seen agent. -/
def healthyAgent : AgentInfo :=
  { agentId := "agent-1", capabilities := [capX], status := .active
    healthScore := 1, lastSeen := 0, loadMetrics := [("cpu_usage", 0)] }

/-- Scoring scenario: a half-loaded agent. -/
def loadedAgent : AgentInfo :=
  { agentId := "agent-2", capabilities := [capX], status := .active
    healthScore := 1 / 2, lastSeen := 0
    loadMetrics := [("cpu_usage", 1 / 2)] }

/-- The registry holding the two scoring-scenario agents. -/
def scoringRegistry : A2AAgentRegistry :=
  (A2AAgentRegistry.registerAgent {} healthyAgent).registerAgent loadedAgent

/-- A placeholder HMAC-SHA256 standing in for the external primitive
in the closed JWT witness (the JWT theorems hold for every such
function). -/
def constHmac : Bytes → Bytes → Bytes := fun _ _ => [1, 2, 255]

/-- The JWT handler of the concrete scenario (`HS256`, default
verification flags and leeway). -/
def sampleJwtHandler : JWTAuthHandler :=
  { secretKey := "secret".data, algorithm := "HS256".data
    verifyExp := true, verifyIat := true, leeway := 0 }

/-! ## Segments of an encoded JWT (components of `_encode_jwt`) -/

/-- The base64url header segment of a token produced by `_encode_jwt`. -/
def headerSegment (h : JWTAuthHandler) : Str :=
  b64Encode (utf8Encode (jsonDumps (jwtHeader h)))

/-- The base64url payload segment of a token produced by `_encode_jwt`. -/
def payloadSegment (payload : JVal) : Str :=
  b64Encode (utf8Encode (jsonDumps payload))

/-- The signature segment of a token produced by `_encode_jwt`. -/
def signatureSegment (hmacF : Bytes → Bytes → Bytes)
    (h : JWTAuthHandler) (payload : JVal) : Str :=
  createSignature hmacF h (headerSegment h ++ '.' :: payloadSegment payload)

/-! # Theorems

General lemmas about the embedded operations, followed by one theorem
per specification claim (with witnesses and counterexamples where
applicable). -/

theorem alookup_aset_self {κ α : Type} [DecidableEq κ]
    (m : List (κ × α)) (k : κ) (v : α) : alookup (aset m k v) k = some v := by
  induction m with
  | nil => simp [aset, alookup]
  | cons kv rest ih =>
      obtain ⟨k', v'⟩ := kv
      by_cases h : k' = k
      · simp [aset, alookup, h]
      · simp [aset, alookup, h, ih]

theorem alookup_aset_ne {κ α : Type} [DecidableEq κ]
    (m : List (κ × α)) (k k2 : κ) (v : α) (h : k ≠ k2) :
    alookup (aset m k v) k2 = alookup m k2 := by
  induction m with
  | nil => simp [aset, alookup, h]
  | cons kv rest ih =>
      obtain ⟨k', v'⟩ := kv
      by_cases h' : k' = k
      · subst h'
        simp [aset, alookup, h]
      · simp [aset, alookup, h', ih]

theorem alookup_filter_ne {α : Type} (m : List (String × α)) (n : String) :
    alookup (m.filter (fun kv => kv.1 ≠ n)) n = none := by
  induction m with
  | nil => simp [alookup]
  | cons kv rest ih =>
      obtain ⟨k, v⟩ := kv
      by_cases h : k = n
      · simpa [List.filter, h] using ih
      · simpa [List.filter, h, alookup] using ih

/-- C1.  For every registered tool whose `execute` callable raises (here:
the declaration-layer adapter rejecting the arguments with a
`ValidationError`), `ToolRegistry.execute_tool` does **not** return an
error-flagged `MCPToolResult`: the `except` handler evaluates the
never-assigned local `result`, so the call raises `UnboundLocalError`
to its caller — the code contradicts the claimed (and clearly
intended, per the handler's own wrapping code) behaviour. -/
theorem claim1_execute_tool_raises_unbound_local :
    (registryWithRaisingTool.executeTool "echo" [] sampleContext 0).1 =
      .error (.unboundLocalError "result") := by
  rfl

/-- C6.  Registering a tool fails exactly when the name is already
present (and, the call raising before any assignment, leaves the
registry unchanged — in this model a failing `register` returns no new
state at all); after `unregister`, registering the same name succeeds. -/
theorem claim6_registry_uniqueness (reg : ToolRegistry)
    (tool tool2 : Tool) (hname : tool2.name = tool.name) :
    ((∃ e, reg.register tool = .error e) ↔ amem reg.tools tool.name = true) ∧
    (∃ reg2, (reg.unregister tool.name).register tool2 = .ok reg2) := by
  constructor
  · unfold ToolRegistry.register
    by_cases h : amem reg.tools tool.name = true
    · simp [h]
    · simp [h]
  · have hfalse : amem ((reg.unregister tool.name).tools) tool2.name
        = false := by
      rw [hname]
      simp only [ToolRegistry.unregister, amem]
      rw [alookup_filter_ne]
      rfl
    refine ⟨{ reg.unregister tool.name with
      tools := aset ((reg.unregister tool.name).tools) tool2.name tool2 }, ?_⟩
    unfold ToolRegistry.register
    simp [hfalse]

/-- Closed instance of C6: with `"echo"` registered, registering it
again fails, and succeeds after unregistration. -/
theorem claim6_registry_uniqueness_witness :
    (benignTool.name = benignTool.name) ∧
    (((∃ e, ({ tools := [("echo", benignTool)] } :
        ToolRegistry).register benignTool = .error e) ↔
      amem ({ tools := [("echo", benignTool)] } :
        ToolRegistry).tools benignTool.name = true) ∧
    (∃ reg2, (({ tools := [("echo", benignTool)] } :
        ToolRegistry).unregister benignTool.name).register benignTool =
        .ok reg2)) :=
  ⟨rfl, claim6_registry_uniqueness _ benignTool benignTool rfl⟩

theorem convertContentFold_text (acc : List PbContent) (t : Str) :
    convertContentFold acc (.text t) = acc ++ [PbContent.text t] := rfl

theorem convertContentFold_json (acc : List PbContent) (d : JVal) :
    convertContentFold acc (.json d) = acc ++ [PbContent.json d] := rfl

theorem convertContentFold_binary (acc : List PbContent) (d : Bytes)
    (m : String) :
    convertContentFold acc (.binary d m) =
      acc ++ [PbContent.binary d m] := rfl

theorem convertContentFold_error (acc : List PbContent) (code : String)
    (msg : Str) (d : JVal) :
    convertContentFold acc (.error code msg d) = acc := rfl

theorem contentItem_not_error_iff (c : ContentItem) :
    (! c.isErrorItem) = true ↔ c.typeTag ≠ "error" := by
  cases c <;> simp [ContentItem.isErrorItem, ContentItem.typeTag]

theorem convertResultToPb_foldl (l : List ContentItem)
    (acc : List PbContent) :
    l.foldl convertContentFold acc =
      acc ++ (l.filter (fun c => ! c.isErrorItem)).map convertContentItem := by
  induction l generalizing acc with
  | nil => simp
  | cons c rest ih =>
      rw [List.foldl_cons]
      cases c with
      | text t =>
          rw [convertContentFold_text, ih]
          simp [ContentItem.isErrorItem, ContentItem.typeTag,
            convertContentItem, List.filter_cons]
      | json d =>
          rw [convertContentFold_json, ih]
          simp [ContentItem.isErrorItem, ContentItem.typeTag,
            convertContentItem, List.filter_cons]
      | binary d m =>
          rw [convertContentFold_binary, ih]
          simp [ContentItem.isErrorItem, ContentItem.typeTag,
            convertContentItem, List.filter_cons]
      | error code msg d =>
          rw [convertContentFold_error, ih]
          simp [ContentItem.isErrorItem, ContentItem.typeTag,
            List.filter_cons]

/-- C9.  `_convert_result_to_pb` emits exactly the non-error content
items, converted in their original order, together with the metadata;
error items are silently dropped, so an all-error result crosses the
wire as a successful result with empty content. -/
theorem claim9_wire_conversion_drops_error_items (r : MCPToolResult) :
    (convertResultToPb r).content =
      (r.content.filter (fun c => ! c.isErrorItem)).map convertContentItem ∧
    (convertResultToPb r).metadata = r.metadata ∧
    ((∀ c ∈ r.content, c.isErrorItem = true) →
      (convertResultToPb r).content = []) := by
  refine ⟨?_, rfl, ?_⟩
  · simpa [convertResultToPb] using convertResultToPb_foldl r.content []
  · intro hall
    have hfilter : r.content.filter (fun c => ! c.isErrorItem) = [] := by
      simp only [List.filter_eq_nil_iff]
      intro c hc
      simp [hall c hc]
    simpa [convertResultToPb, hfilter] using convertResultToPb_foldl r.content []

/-- Closed instance of C9: a result holding only error items converts
to a wire result with empty content. -/
theorem claim9_wire_conversion_witness :
    (∀ c ∈ allErrorResult.content, c.isErrorItem = true) ∧
    (convertResultToPb allErrorResult).content = [] :=
  ⟨by decide,
   (claim9_wire_conversion_drops_error_items allErrorResult).2.2 (by decide)⟩

theorem chainDict_eq (n : Nat) :
    chainDict n = .dict (chainDictEntries n) := by
  cases n <;> rfl

theorem sanitizeInput_dict (ext : StringExternals) (cfg : SanitizationConfig)
    (kvs : List (Str × PyValue)) (path : Str) :
    sanitizeInput ext cfg (.dict kvs) path =
      (sanitizeDict ext cfg kvs path 0).map .dict := by
  rw [sanitizeInput]

theorem sanitizeInput_list (ext : StringExternals) (cfg : SanitizationConfig)
    (xs : List PyValue) (path : Str) :
    sanitizeInput ext cfg (.list xs) path =
      (sanitizeArray ext cfg xs path).map .list := by
  rw [sanitizeInput]

theorem sanitizeString_a (path : Str) :
    sanitizeString asciiExternals {} "a".data path = .ok "a".data := rfl

theorem sanitizeDict_nil (ext : StringExternals) (path : Str) (depth : Nat)
    (hd : ¬ 10 < depth) :
    sanitizeDict ext {} [] path depth = .ok [] := by
  rw [sanitizeDict]
  simp [hd, sanitizeDictItems]

theorem sanitizeDict_single_dict (ext : StringExternals)
    (k : Str) (inner : List (Str × PyValue)) (path : Str) (depth : Nat)
    (hd : ¬ 10 < depth) :
    sanitizeDict ext {} [(k, .dict inner)] path depth =
      (sanitizeString ext {} k (path ++ '.' :: k)).bind (fun k2 =>
        ((sanitizeDict ext {} inner (path ++ '.' :: k) (depth + 1)).map
          PyValue.dict).bind (fun v2 => .ok [(k2, v2)])) := by
  conv_lhs => rw [sanitizeDict]
  simp only [hd, if_false]
  rw [sanitizeDictItems]
  cases hk : sanitizeString ext {} k (path ++ '.' :: k) with
  | error e => simp [hk, bind, Except.bind]
  | ok k2 =>
      cases hr : sanitizeDict ext {} inner (path ++ '.' :: k) (depth + 1) with
      | error e2 => simp [hk, hr, bind, Except.bind, Except.map]
      | ok v2 =>
          simp [hk, hr, bind, Except.bind, Except.map, sanitizeDictItems, aset]

theorem sanitizeDict_single_list (ext : StringExternals)
    (k : Str) (xs : List PyValue) (path : Str) (depth : Nat)
    (hd : ¬ 10 < depth) :
    sanitizeDict ext {} [(k, .list xs)] path depth =
      (sanitizeString ext {} k (path ++ '.' :: k)).bind (fun k2 =>
        (sanitizeInput ext {} (.list xs) (path ++ '.' :: k)).bind
          (fun v2 => .ok [(k2, v2)])) := by
  conv_lhs => rw [sanitizeDict]
  simp only [hd, if_false]
  rw [sanitizeDictItems]
  cases hk : sanitizeString ext {} k (path ++ '.' :: k) with
  | error e => simp [hk, bind, Except.bind]
  | ok k2 =>
      cases hr : sanitizeInput ext {} (.list xs) (path ++ '.' :: k) with
      | error e2 => simp [hk, hr, bind, Except.bind, Except.map]
      | ok v2 =>
          simp [hk, hr, bind, Except.bind, Except.map, sanitizeDictItems, aset]

theorem sanitizeDict_chain_isOk_false (ext : StringExternals) :
    ∀ (n : Nat) (path : Str) (depth : Nat), 10 < depth + n →
    (sanitizeDict ext {} (chainDictEntries n) path depth).isOk = false := by
  intro n
  induction n with
  | zero =>
      intro path depth h
      simp only [Nat.add_zero] at h
      simp [chainDictEntries, sanitizeDict, h, Except.isOk, Except.toBool]
  | succ n ih =>
      intro path depth h
      by_cases hd : 10 < depth
      · simp [chainDictEntries, sanitizeDict, hd, Except.isOk, Except.toBool]
      · have hstep := sanitizeDict_single_dict ext "a".data
          (chainDictEntries n) path depth hd
        have hrec := ih (path ++ '.' :: "a".data) (depth + 1) (by omega)
        show (sanitizeDict ext {} (chainDictEntries (n+1)) path depth).isOk
          = false
        rw [show chainDictEntries (n+1) = [("a".data, chainDict n)] from rfl,
          chainDict_eq n, hstep]
        cases hk : sanitizeString ext {} "a".data (path ++ '.' :: "a".data) with
        | error e => simp [Except.bind, Except.isOk, Except.toBool]
        | ok k2 =>
            cases hr : sanitizeDict ext {} (chainDictEntries n)
                (path ++ '.' :: "a".data) (depth + 1) with
            | error e2 =>
                simp [Except.bind, Except.map, Except.isOk, Except.toBool]
            | ok v2 =>
                rw [hr] at hrec
                simp [Except.isOk, Except.toBool] at hrec

theorem sanitizeDict_chain_ok :
    ∀ (n : Nat) (path : Str) (depth : Nat), depth + n ≤ 10 →
    sanitizeDict asciiExternals {} (chainDictEntries n) path depth =
      .ok (chainDictEntries n) := by
  intro n
  induction n with
  | zero =>
      intro path depth h
      exact sanitizeDict_nil asciiExternals path depth (by omega)
  | succ n ih =>
      intro path depth h
      rw [show chainDictEntries (n+1) = [("a".data, chainDict n)] from rfl,
        chainDict_eq n,
        sanitizeDict_single_dict asciiExternals "a".data (chainDictEntries n)
          path depth (by omega),
        sanitizeString_a, ih (path ++ '.' :: "a".data) (depth + 1) (by omega)]
      simp [bind, Except.bind, Except.map, chainDict_eq n]

theorem sanitizeArray_single (ext : StringExternals) (x : PyValue)
    (path : Str) :
    sanitizeArray ext {} [x] path =
      (sanitizeInput ext {} x (path ++ '[' :: intToStr 0 ++ [']'])).bind
        (fun x2 => .ok [x2]) := by
  rw [sanitizeArray]
  simp only [show ¬ (({} : SanitizationConfig).maxArrayLength < ([x] :
    List PyValue).length) from by simp, if_false]
  rw [sanitizeArrayItems]
  cases hx : sanitizeInput ext {} x (path ++ '[' :: intToStr 0 ++ [']']) with
  | error e => simp [hx, bind, Except.bind]
  | ok x2 => simp [hx, bind, Except.bind, sanitizeArrayItems, pure, Except.pure]

theorem deepViaList_ok :
    ∀ (n : Nat) (path : Str),
    sanitizeInput asciiExternals {} (deepViaList n) path =
      .ok (deepViaList n) := by
  intro n
  induction n with
  | zero =>
      intro path
      rw [show deepViaList 0 = .dict [] from rfl, sanitizeInput_dict,
        sanitizeDict_nil asciiExternals path 0 (by omega)]
      rfl
  | succ n ih =>
      intro path
      rw [show deepViaList (n+1) =
          .dict [("a".data, .list [deepViaList n])] from rfl,
        sanitizeInput_dict,
        sanitizeDict_single_list asciiExternals "a".data [deepViaList n]
          path 0 (by omega),
        sanitizeString_a, sanitizeInput_list, sanitizeArray_single,
        ih (path ++ '.' :: "a".data ++ '[' :: intToStr 0 ++ [']'])]
      simp [bind, Except.bind, Except.map]

/-- Counterexample to C4: a JSON object nested 11 levels deep — a
chain of 11 dictionaries — is **accepted** by `sanitize_input` under
the default configuration (the innermost dictionary is processed at
depth 10, and the check rejects only `depth > max_json_depth`). -/
theorem claim4_sanitizer_depth_counterexample :
    sanitizeInput asciiExternals {} (chainDict 10) "root".data =
      .ok (chainDict 10) := by
  rw [chainDict_eq 10, sanitizeInput_dict,
    sanitizeDict_chain_ok 10 "root".data 0 (by omega)]
  rfl

/-- C4 (amended).  Depth tracking rejects a chain of **12** nested
dictionaries (whatever the external string primitives do), the
11-dictionary chain is accepted, and the depth counter applies only
along directly nested dictionary values — a dictionary reached through
an array restarts at depth 0, so a 41-dictionary nest alternating
through one-element arrays is accepted as well. -/
theorem claim4_sanitizer_depth_amended (ext : StringExternals) :
    (∃ e, sanitizeInput ext {} (chainDict 11) "root".data = .error e) ∧
    sanitizeInput asciiExternals {} (chainDict 10) "root".data =
      .ok (chainDict 10) ∧
    sanitizeInput asciiExternals {} (deepViaList 40) "root".data =
      .ok (deepViaList 40) := by
  refine ⟨?_, ?_, deepViaList_ok 40 _⟩
  case refine_2 =>
    rw [chainDict_eq 10, sanitizeInput_dict,
      sanitizeDict_chain_ok 10 "root".data 0 (by omega)]
    rfl
  have hchain := sanitizeDict_chain_isOk_false ext 11 "root".data 0
    (by omega)
  cases hr : sanitizeDict ext {} (chainDictEntries 11) "root".data 0 with
  | error e =>
      exact ⟨e, by rw [chainDict_eq 11, sanitizeInput_dict, hr]; rfl⟩
  | ok v =>
      rw [hr] at hchain
      simp [Except.isOk, Except.toBool] at hchain

theorem consume_eq (b : TokenBucket) (n now : ℚ) :
    b.consume n now =
      (decide (n ≤ min b.capacity
          (b.tokens + (now - b.lastRefill) * b.refillRate)),
       { b with
          tokens := if n ≤ min b.capacity
              (b.tokens + (now - b.lastRefill) * b.refillRate) then
            min b.capacity (b.tokens + (now - b.lastRefill) * b.refillRate) - n
          else min b.capacity (b.tokens + (now - b.lastRefill) * b.refillRate),
          lastRefill := now }) := by
  simp only [TokenBucket.consume, TokenBucket.refill]
  split_ifs with h <;> simp [h]

theorem consumeRepeat_all_true (rate : ℚ) :
    ∀ (k : Nat) (cap t last : ℚ), (k : ℚ) ≤ t → t ≤ cap →
    consumeRepeat ⟨cap, t, rate, last⟩ last k =
      (List.replicate k true, ⟨cap, t - k, rate, last⟩) := by
  intro k
  induction k with
  | zero => intro cap t last h1 h2; simp [consumeRepeat]
  | succ k ih =>
      intro cap t last h1 h2
      have hk : (0:ℚ) ≤ (k:ℚ) := by positivity
      have hcast : ((k+1 : Nat) : ℚ) = (k:ℚ) + 1 := by push_cast; ring
      rw [hcast] at h1
      have hmin : min cap (t + (last - last) * rate) = t := by
        rw [sub_self, zero_mul, add_zero, min_eq_right h2]
      rw [consumeRepeat, TokenBucket.consume, TokenBucket.refill]
      simp only [hmin]
      rw [if_pos (by linarith)]
      rw [ih cap (t - 1) last (by linarith) (by linarith)]
      simp only [List.replicate_succ, hcast, Prod.mk.injEq,
        TokenBucket.mk.injEq]
      exact ⟨trivial, trivial, by ring, trivial, trivial⟩

/-- C5.  `TokenBucket.consume` succeeds exactly when the refilled
token count (capped at capacity) covers the request, deducting the
request from that count; for a bucket of capacity 10 and refill rate 1
starting full, 10 immediate `consume(1)` calls all return `True`, an
11th immediate call returns `False`, and after one second the refill
makes `consume(1)` succeed again. -/
theorem claim5_token_bucket_arithmetic (b : TokenBucket) (n now : ℚ) :
    ((b.consume n now).1 = true ↔
      n ≤ min b.capacity (b.tokens + (now - b.lastRefill) * b.refillRate)) ∧
    ((b.consume n now).1 = true →
      (b.consume n now).2.tokens =
        min b.capacity (b.tokens + (now - b.lastRefill) * b.refillRate) - n) ∧
    (consumeRepeat (TokenBucket.create 10 1 0) 0 10).1 =
      List.replicate 10 true ∧
    ((consumeRepeat (TokenBucket.create 10 1 0) 0 10).2.consume 1 0).1 =
      false ∧
    ((consumeRepeat (TokenBucket.create 10 1 0) 0 10).2.consume 1 1).1 =
      true := by
  have h10 : consumeRepeat (TokenBucket.create 10 1 0) 0 10 =
      (List.replicate 10 true, ⟨10, 0, 1, 0⟩) := by
    have := consumeRepeat_all_true 1 10 10 10 0 (by norm_num) (by norm_num)
    rw [show TokenBucket.create 10 1 0 = ⟨10, 10, 1, 0⟩ from rfl, this]
    norm_num
  refine ⟨?_, ?_, ?_, ?_, ?_⟩
  · rw [consume_eq]
    simp
  · rw [consume_eq]
    intro h
    simp only [decide_eq_true_eq] at h
    simp [h]
  · rw [h10]
  · rw [h10, consume_eq]
    norm_num
  · rw [h10, consume_eq]
    norm_num

theorem claim5_token_bucket_witness :
    ((TokenBucket.create 10 1 0).consume 1 0).1 = true ∧
    ((TokenBucket.create 10 1 0).consume 1 0).2.tokens =
      min (TokenBucket.create 10 1 0).capacity
        ((TokenBucket.create 10 1 0).tokens +
          ((0:ℚ) - (TokenBucket.create 10 1 0).lastRefill) *
            (TokenBucket.create 10 1 0).refillRate) - 1 := by
  have htrue : ((TokenBucket.create 10 1 0).consume 1 0).1 = true :=
    (claim5_token_bucket_arithmetic (TokenBucket.create 10 1 0) 1 0).1.mpr
      (by norm_num [TokenBucket.create])
  exact ⟨htrue,
    (claim5_token_bucket_arithmetic (TokenBucket.create 10 1 0) 1 0).2.1 htrue⟩

theorem alookup_of_mem_nodup {α : Type} (l : List (String × α))
    (key : String) (v : α) (hmem : (key, v) ∈ l)
    (hnodup : (l.map Prod.fst).Nodup) : alookup l key = some v := by
  induction l with
  | nil => cases hmem
  | cons kv rest ih =>
      obtain ⟨k1, w⟩ := kv
      rcases List.mem_cons.mp hmem with heq | hrest
      · cases heq
        simp [alookup]
      · rw [List.map_cons, List.nodup_cons] at hnodup
        have hk1 : k1 ≠ key := by
          intro h
          subst h
          exact hnodup.1 (List.mem_map.mpr ⟨(k1, v), hrest, rfl⟩)
        simp only [alookup, if_neg hk1]
        exact ih hrest hnodup.2

theorem substUpdate_lookup_other (depId : String)
    (depResult : MCPToolResult) (acc : Args) (k1 : String) (w : JVal)
    (key : String) (hne : k1 ≠ key) :
    alookup (substUpdate depId depResult acc (k1, w)) key =
      alookup acc key := by
  unfold substUpdate
  cases w with
  | str s =>
      by_cases hc : containsSub (depPlaceholder depId) s
      · simp only [hc, if_true]
        cases depResult.content with
        | nil => rfl
        | cons first rest => exact alookup_aset_ne acc k1 key _ hne
      · simp [hc]
  | num n => rfl
  | arr xs => rfl
  | obj kvs => rfl

theorem substFold_preserve (depId : String) (depResult : MCPToolResult)
    (l : List (String × JVal)) (acc : Args) (key : String)
    (hnotin : key ∉ l.map Prod.fst) :
    alookup (l.foldl (substUpdate depId depResult) acc) key =
      alookup acc key := by
  induction l generalizing acc with
  | nil => rfl
  | cons kv rest ih =>
      obtain ⟨k1, w⟩ := kv
      simp only [List.map_cons, List.mem_cons, not_or] at hnotin
      rw [List.foldl_cons, ih _ hnotin.2,
        substUpdate_lookup_other depId depResult acc k1 w key
          (fun h => hnotin.1 h.symm)]

theorem substUpdate_lookup_self (depId : String)
    (depResult : MCPToolResult) (acc : Args) (key : String) (v w : JVal)
    (hacc : alookup acc key = some w) :
    alookup (substUpdate depId depResult acc (key, v)) key =
      some (substValueDep depId depResult v w) := by
  unfold substUpdate substValueDep
  cases v with
  | str s =>
      by_cases hc : containsSub (depPlaceholder depId) s
      · simp only [hc, if_true]
        cases depResult.content with
        | nil => exact hacc
        | cons first rest => exact alookup_aset_self acc key _
      · simpa [hc] using hacc
  | num n => exact hacc
  | arr xs => exact hacc
  | obj kvs => exact hacc

theorem substFold_lookup (depId : String) (depResult : MCPToolResult) :
    ∀ (l : List (String × JVal)) (acc : Args) (key : String) (v w : JVal),
    (key, v) ∈ l → (l.map Prod.fst).Nodup → alookup acc key = some w →
    alookup (l.foldl (substUpdate depId depResult) acc) key =
      some (substValueDep depId depResult v w) := by
  intro l
  induction l with
  | nil => intro acc key v w hmem; cases hmem
  | cons kv rest ih =>
      intro acc key v w hmem hnodup hacc
      obtain ⟨k1, w1⟩ := kv
      simp only [List.map_cons, List.nodup_cons] at hnodup
      rcases List.mem_cons.mp hmem with heq | hrest
      · cases heq
        rw [List.foldl_cons, substFold_preserve depId depResult rest _ key
          hnodup.1, substUpdate_lookup_self depId depResult acc key v w hacc]
      · have hk1 : k1 ≠ key := by
          intro h
          subst h
          exact hnodup.1 (List.mem_map.mpr ⟨(k1, v), hrest, rfl⟩)
        rw [List.foldl_cons]
        exact ih _ key v w hrest hnodup.2
          (by rw [substUpdate_lookup_other depId depResult acc k1 w1 key hk1]
              exact hacc)

theorem substDeps_lookup (completedSteps : List (String × MCPToolResult))
    (args : List (String × JVal)) (key : String) (v : JVal)
    (hmem : (key, v) ∈ args) (hnodup : (args.map Prod.fst).Nodup) :
    ∀ (deps : List String) (acc : Args) (w : JVal),
    alookup acc key = some w →
    alookup (deps.foldl (fun arguments depId =>
        match alookup completedSteps depId with
        | none => arguments
        | some depResult =>
            args.foldl (substUpdate depId depResult) arguments) acc) key =
      some (deps.foldl (substValueStep completedSteps v) w) := by
  intro deps
  induction deps with
  | nil => intro acc w hacc; simpa using hacc
  | cons d ds ih =>
      intro acc w hacc
      rw [List.foldl_cons, List.foldl_cons]
      cases hal : alookup completedSteps d with
      | none =>
          simp only [substValueStep, hal]
          exact ih _ w hacc
      | some depResult =>
          simp only [substValueStep, hal]
          exact ih _ _ (substFold_lookup d depResult args acc key v w hmem
            hnodup hacc)

theorem substValueStep_skip (completedSteps : List (String × MCPToolResult))
    (v acc : JVal) (d : String)
    (Hno : ∀ s, v = .str s → containsSub (depPlaceholder d) s = false) :
    substValueStep completedSteps v acc d = acc := by
  unfold substValueStep substValueDep
  cases alookup completedSteps d with
  | none => rfl
  | some depResult =>
      cases v with
      | str s => simp [Hno s rfl]
      | num n => rfl
      | arr xs => rfl
      | obj kvs => rfl

theorem substValueAll_id (completedSteps : List (String × MCPToolResult))
    (v : JVal) :
    ∀ (deps : List String),
    (∀ s, v = .str s → ∀ d ∈ deps,
      containsSub (depPlaceholder d) s = false) →
    substValueAll deps completedSteps v = v := by
  intro deps
  induction deps with
  | nil => intro Hno; rfl
  | cons d ds ih =>
      intro Hno
      unfold substValueAll at ih ⊢
      rw [List.foldl_cons, substValueStep_skip completedSteps v v d
        (fun s hs => Hno s hs d (List.mem_cons_self d ds))]
      exact ih (fun s hs d2 hd2 => Hno s hs d2 (List.mem_cons_of_mem d hd2))

/-- Counterexample to C2: with dependency `D` completed with one
structured (json) content item `{"k": "v"}`, the argument
`"pre {D} post"` is rewritten to `"pre {} post"` — the item's absent
`"text"` field defaulting to the literal `"{}"` — and **not** to the
serialized structured data the claim describes. -/
theorem claim2_substitution_counterexample :
    substituteStepArguments placeholderStep [("D", jsonDepResult)] =
      [("x", .str "pre \x7b\x7d post".data)] ∧
    ("pre \x7b\x7d post".data : Str) ≠
      "pre ".data ++ jsonDumps (.obj [("k".data, .str "v".data)]) ++
        " post".data := by
  exact ⟨rfl, by decide⟩

/-- C2 (amended).  For every workflow step (argument keys distinct, as
Python dictionaries make them): (i) every argument's final value is
the fold of the dependency loop over the declared dependencies in
order, where each dependency that is completed, has a nonempty content
list and whose placeholder occurs in the *original* string value
overwrites the argument with the original value rewritten for that
dependency alone; (ii) an argument that is not a string, or contains
no declared dependency's placeholder, passes through unchanged;
(iii) the rewrite renders a text item as its text and a structured
(json) item as the literal two-character string `"{}"` — the code
reads the item's `"text"` entry, which `add_json` never sets, so the
serialized structured data is never consulted (other item types are
rendered by Python's `str` of the item, a value no conjunct inspects);
(iv) when the placeholders of two declared dependencies, both
completed with nonempty content, occur in one argument, only the
*last* dependency's substitution survives — the rewrite restarts from
the original value, so the earlier placeholder remains in place. -/
theorem claim2_substitution_amended (step : WorkflowStep)
    (completedSteps : CompletedSteps)
    (hnodup : (step.arguments.map Prod.fst).Nodup) :
    (∀ key v, (key, v) ∈ step.arguments →
      alookup (substituteStepArguments step completedSteps) key =
        some (substValueAll step.dependsOn completedSteps v)) ∧
    (∀ v, (∀ s, v = .str s → ∀ d ∈ step.dependsOn,
        containsSub (depPlaceholder d) s = false) →
      substValueAll step.dependsOn completedSteps v = v) ∧
    (∀ t, renderDepContent (.text t) = t) ∧
    (∀ d, renderDepContent (.json d) = "\x7b\x7d".data) ∧
    (∀ dA dB rA rB fA cA fB cB s,
      step.dependsOn = [dA, dB] →
      alookup completedSteps dA = some rA →
      alookup completedSteps dB = some rB →
      rA.content = fA :: cA → rB.content = fB :: cB →
      containsSub (depPlaceholder dA) s = true →
      containsSub (depPlaceholder dB) s = true →
      substValueAll step.dependsOn completedSteps (.str s) =
        .str (replaceAll (depPlaceholder dB) (renderDepContent fB) s)) := by
  refine ⟨?_, ?_, fun t => rfl, fun d => rfl, ?_⟩
  · intro key v hmem
    unfold substituteStepArguments substValueAll
    exact substDeps_lookup completedSteps step.arguments key v hmem hnodup
      step.dependsOn step.arguments v
      (alookup_of_mem_nodup step.arguments key v hmem hnodup)
  · intro v Hno
    exact substValueAll_id completedSteps v step.dependsOn Hno
  · intro dA dB rA rB fA cA fB cB s hdeps halA halB hcA hcB hcontA hcontB
    have hstepB : ∀ acc, substValueStep completedSteps (.str s) acc dB =
        .str (replaceAll (depPlaceholder dB) (renderDepContent fB) s) := by
      intro acc
      unfold substValueStep substValueDep
      rw [halB]
      simp [hcontB, hcB]
    rw [hdeps]
    unfold substValueAll
    rw [List.foldl_cons, List.foldl_cons, List.foldl_nil, hstepB]


/-- Closed instance of the amended C2: for the two-dependency step
whose argument mentions both placeholders, the argument resolves to
the dependency-loop fold, and that fold computes to the original
value with only the *last* dependency's placeholder substituted — the
`\x7bA\x7d` placeholder survives verbatim. -/
theorem claim2_substitution_amended_witness :
    alookup (substituteStepArguments twoDepStep
        [("A", textResultA), ("B", textResultB)]) "x" =
      some (substValueAll ["A", "B"]
        [("A", textResultA), ("B", textResultB)]
        (.str "\x7bA\x7d and \x7bB\x7d".data)) ∧
    substValueAll ["A", "B"] [("A", textResultA), ("B", textResultB)]
        (.str "\x7bA\x7d and \x7bB\x7d".data) =
      .str "\x7bA\x7d and rb".data :=
  ⟨(claim2_substitution_amended twoDepStep
      [("A", textResultA), ("B", textResultB)] (by decide)).1 "x" _
      (List.mem_cons_self ("x", JVal.str "\x7bA\x7d and \x7bB\x7d".data) []),
   by rfl⟩

theorem pyMaxByKey_mem (f : AgentInfo → ℚ) :
    ∀ (xs : List AgentInfo) (x : AgentInfo), pyMaxByKey f x xs ∈ x :: xs := by
  intro xs
  induction xs with
  | nil => intro x; simp [pyMaxByKey]
  | cons y ys ih =>
      intro x
      unfold pyMaxByKey at ih ⊢
      rw [List.foldl_cons]
      by_cases h : f x < f y
      · simp only [if_pos h]
        rcases List.mem_cons.mp (ih y) with h2 | h2
        · simp [h2]
        · simp [List.mem_cons, h2]
      · simp only [if_neg h]
        rcases List.mem_cons.mp (ih x) with h2 | h2
        · simp [h2]
        · simp [List.mem_cons, h2]

theorem pyMaxByKey_ge (f : AgentInfo → ℚ) :
    ∀ (xs : List AgentInfo) (x : AgentInfo) (b : AgentInfo),
      b ∈ x :: xs → f b ≤ f (pyMaxByKey f x xs) := by
  intro xs
  induction xs with
  | nil =>
      intro x b hb
      rcases List.mem_cons.mp hb with h | h
      · subst h; simp [pyMaxByKey]
      · cases h
  | cons y ys ih =>
      intro x b hb
      unfold pyMaxByKey at ih ⊢
      rw [List.foldl_cons]
      by_cases h : f x < f y
      · simp only [if_pos h]
        rcases List.mem_cons.mp hb with h2 | h2
        · subst h2
          calc f b ≤ f y := le_of_lt h
            _ ≤ f (List.foldl (fun best z => if f best < f z then z else best)
                y ys) := ih y y (List.mem_cons_self y ys)
        · exact ih y b h2
      · simp only [if_neg h]
        rcases List.mem_cons.mp hb with h2 | h2
        · rw [h2]
          exact ih x x (List.mem_cons_self x ys)
        · rcases List.mem_cons.mp h2 with h3 | h3
          · subst h3
            calc f b ≤ f x := le_of_not_lt h
              _ ≤ f (List.foldl (fun best z => if f best < f z then z else best)
                  x ys) := ih x x (List.mem_cons_self x ys)
          · exact ih x b (List.mem_cons.mpr (Or.inr h3))

theorem bestAgentCandidates_subset (reg : A2AAgentRegistry)
    (capabilityName : String) (requirements : Option (List String)) :
    ∀ a ∈ bestAgentCandidates reg capabilityName requirements,
      a ∈ reg.findAgentsByCapability capabilityName := by
  intro a ha
  unfold bestAgentCandidates at ha
  rcases requirements with _ | ⟨_ | ⟨r, rs⟩⟩
  · exact ha
  · exact ha
  · exact List.mem_of_mem_filter ha

theorem scoreAgent_nonneg (now : ℚ) (a : AgentInfo)
    (hh : 0 ≤ a.healthScore) (hc : a.cpuUsage ≤ 1) :
    0 ≤ scoreAgent now a := by
  unfold scoreAgent
  by_cases hs : a.status ≠ AgentStatus.active
  · simp [hs]
  · simp only [hs, if_false]
    have h1 : 0 ≤ a.healthScore * (4 / 10 : ℚ) := by positivity
    have h2 : 0 ≤ (1 - a.cpuUsage) * (4 / 10 : ℚ) := by
      have : 0 ≤ 1 - a.cpuUsage := by linarith
      positivity
    have h3 : 0 ≤ max 0 (1 - (now - a.lastSeen) / 300) * (2 / 10 : ℚ) := by
      have : (0:ℚ) ≤ max 0 (1 - (now - a.lastSeen) / 300) := le_max_left 0 _
      positivity
    linarith

/-- C7.  `find_best_agent` considers only agents indexed under the
capability (filtered by the requirement list when one is supplied); a
returned agent is a candidate attaining the maximum score with a
strictly positive score; the result is `None` exactly when there is no
candidate or every candidate scores `0`; and a non-active agent scores
`0`.  The hypotheses are the data-model invariants: health scores lie
in `[0, 1]` and the `cpu_usage` load metric is a utilization fraction
(only the lower bound on health and upper bound on cpu are needed). -/
theorem claim7_best_agent_scoring (reg : A2AAgentRegistry)
    (capabilityName : String) (requirements : Option (List String)) (now : ℚ)
    (hbounds : ∀ a ∈ reg.findAgentsByCapability capabilityName,
      0 ≤ a.healthScore ∧ a.cpuUsage ≤ 1) :
    (∀ a, reg.findBestAgent capabilityName requirements now = some a →
      a ∈ bestAgentCandidates reg capabilityName requirements ∧
      (∀ b ∈ bestAgentCandidates reg capabilityName requirements,
        scoreAgent now b ≤ scoreAgent now a) ∧
      0 < scoreAgent now a) ∧
    (reg.findBestAgent capabilityName requirements now = none ↔
      (bestAgentCandidates reg capabilityName requirements = [] ∨
       ∀ b ∈ bestAgentCandidates reg capabilityName requirements,
         scoreAgent now b = 0)) ∧
    (∀ a : AgentInfo, a.status ≠ .active → scoreAgent now a = 0) := by
  have hnonneg : ∀ b ∈ bestAgentCandidates reg capabilityName requirements,
      0 ≤ scoreAgent now b := by
    intro b hb
    obtain ⟨hh, hc⟩ := hbounds b
      (bestAgentCandidates_subset reg capabilityName requirements b hb)
    exact scoreAgent_nonneg now b hh hc
  refine ⟨?_, ?_, ?_⟩
  · intro a ha
    unfold A2AAgentRegistry.findBestAgent at ha
    rcases hc : bestAgentCandidates reg capabilityName requirements with
      _ | ⟨x, xs⟩
    · rw [hc] at ha; cases ha
    · rw [hc] at ha
      by_cases hpos : 0 < scoreAgent now (pyMaxByKey (scoreAgent now) x xs)
      · simp only [hpos, if_true] at ha
        cases ha
        refine ⟨hc ▸ pyMaxByKey_mem (scoreAgent now) xs x, ?_, hpos⟩
        intro b hb
        exact pyMaxByKey_ge (scoreAgent now) xs x b (hc ▸ hb)
      · simp [hpos] at ha
  · unfold A2AAgentRegistry.findBestAgent
    rcases hc : bestAgentCandidates reg capabilityName requirements with
      _ | ⟨x, xs⟩
    · simp
    · constructor
      · intro hnone
        by_cases hpos : 0 < scoreAgent now (pyMaxByKey (scoreAgent now) x xs)
        · simp [hpos] at hnone
        · refine Or.inr ?_
          intro b hb
          have hble := pyMaxByKey_ge (scoreAgent now) xs x b hb
          have hb0 := hnonneg b (hc ▸ hb)
          have hmax0 : scoreAgent now (pyMaxByKey (scoreAgent now) x xs) ≤ 0 :=
            le_of_not_lt hpos
          linarith
      · intro hdisj
        rcases hdisj with hnil | hall
        · cases hnil
        · have hmem := pyMaxByKey_mem (scoreAgent now) xs x
          have h0 := hall _ hmem
          simp [h0]
  · intro a hs
    unfold scoreAgent
    simp [hs]

/-- Closed instance of C7 over the two-agent scoring scenario of the
specification's testable properties. -/
theorem claim7_best_agent_scoring_witness :
    (∀ a ∈ scoringRegistry.findAgentsByCapability "capX",
      0 ≤ a.healthScore ∧ a.cpuUsage ≤ 1) ∧
    (∀ a : AgentInfo, a.status ≠ .active → scoreAgent 0 a = 0) := by
  have hlist : scoringRegistry.findAgentsByCapability "capX" =
      [healthyAgent, loadedAgent] := rfl
  have hb : ∀ a ∈ scoringRegistry.findAgentsByCapability "capX",
      0 ≤ a.healthScore ∧ a.cpuUsage ≤ 1 := by
    intro a ha
    rw [hlist] at ha
    rcases List.mem_cons.mp ha with rfl | ha2
    · norm_num [healthyAgent, AgentInfo.cpuUsage, alookup]
    · rcases List.mem_cons.mp ha2 with rfl | ha3
      · norm_num [loadedAgent, AgentInfo.cpuUsage, alookup]
      · cases ha3
  exact ⟨hb, (claim7_best_agent_scoring scoringRegistry "capX" none 0 hb).2.2⟩

theorem checkKeyRateLimit_rpm (st : RateLimiter) (x : Int) (key : String)
    (n now : ℚ) :
    ({ st with config := { st.config with requestsPerMinute := x } }
        : RateLimiter).checkKeyRateLimit key n now =
      ((st.checkKeyRateLimit key n now).1,
       { (st.checkKeyRateLimit key n now).2 with
          config := { (st.checkKeyRateLimit key n now).2.config with
            requestsPerMinute := x } }) := by
  unfold RateLimiter.checkKeyRateLimit
  cases alookup st.tokenBuckets key <;> dsimp only <;> split_ifs <;> rfl

theorem checkKeys_rpm (x : Int) (n now : ℚ) :
    ∀ (keys : List String) (st : RateLimiter),
    ({ st with config := { st.config with requestsPerMinute := x } }
        : RateLimiter).checkKeys keys n now =
      (((st.checkKeys keys n now).1.1,
        ((st.checkKeys keys n now).1.2).map (fun i =>
          { i with limit := x })),
       { (st.checkKeys keys n now).2 with
          config := { (st.checkKeys keys n now).2.config with
            requestsPerMinute := x } }) := by
  intro keys
  induction keys with
  | nil => intro st; rfl
  | cons key rest ih =>
      intro st
      rw [RateLimiter.checkKeys, RateLimiter.checkKeys,
        checkKeyRateLimit_rpm st x key n now]
      rcases h : st.checkKeyRateLimit key n now with
        ⟨⟨allowed, retryAfter, remaining⟩, st2⟩
      cases allowed with
      | true => simpa using ih st2
      | false => simp

theorem rateLimitKeys_rpm (cfg : RateLimitConfig) (x : Int)
    (u t ip : Option String) :
    rateLimitKeys { cfg with requestsPerMinute := x } u t ip =
      rateLimitKeys cfg u t ip := rfl

theorem checkRateLimit_rpm (st : RateLimiter) (x : Int)
    (u t ip : Option String) (n now : ℚ) :
    ({ st with config := { st.config with requestsPerMinute := x } }
        : RateLimiter).checkRateLimit u t ip n now =
      (((st.checkRateLimit u t ip n now).1.1,
        ((st.checkRateLimit u t ip n now).1.2).map (fun i =>
          { i with limit := x })),
       { (st.checkRateLimit u t ip n now).2 with
          config := { (st.checkRateLimit u t ip n now).2.config with
            requestsPerMinute := x } }) := by
  unfold RateLimiter.checkRateLimit
  split_ifs with h1
  · exact checkKeys_rpm x n now (rateLimitKeys st.config u t ip) st
  · rfl

theorem checkKeyRateLimit_config (st : RateLimiter) (key : String)
    (n now : ℚ) :
    (st.checkKeyRateLimit key n now).2.config = st.config := by
  unfold RateLimiter.checkKeyRateLimit
  cases alookup st.tokenBuckets key <;> dsimp only <;> split_ifs <;> rfl

theorem checkKeys_config (n now : ℚ) :
    ∀ (keys : List String) (st : RateLimiter),
    ((st.checkKeys keys n now).2).config = st.config := by
  intro keys
  induction keys with
  | nil => intro st; rfl
  | cons key rest ih =>
      intro st
      rw [RateLimiter.checkKeys]
      rcases h : st.checkKeyRateLimit key n now with
        ⟨⟨allowed, retryAfter, remaining⟩, st2⟩
      have h2 : st2.config = st.config := by
        have := checkKeyRateLimit_config st key n now
        rw [h] at this
        exact this
      cases allowed with
      | true => simpa [h2] using ih st2
      | false => simpa using h2
  
theorem checkRateLimit_config (st : RateLimiter) (u t ip : Option String)
    (n now : ℚ) :
    (st.checkRateLimit u t ip n now).2.config = st.config := by
  unfold RateLimiter.checkRateLimit
  split_ifs
  · exact checkKeys_config n now (rateLimitKeys st.config u t ip) st
  · rfl

theorem adaptive_check_single (a : AdaptiveRateLimiter)
    (u t ip : Option String) (n now : ℚ) :
    a.checkRateLimit u t ip n now =
      (((a.base.checkRateLimit u t ip n now).1.1,
        ((a.base.checkRateLimit u t ip n now).1.2).map (fun i =>
          { i with limit := a.getAdaptiveLimit })),
       { a with base := (a.base.checkRateLimit u t ip n now).2 }) := by
  unfold AdaptiveRateLimiter.checkRateLimit
  dsimp only
  rw [checkRateLimit_rpm a.base a.getAdaptiveLimit u t ip n now]
  rw [← checkRateLimit_config a.base u t ip n now]

theorem updateServerLoad_base (a : AdaptiveRateLimiter) (cu mu : ℚ) :
    (a.updateServerLoad cu mu).base = a.base := rfl

/-- C10.  `AdaptiveRateLimiter` produces exactly the same allow/deny
decision as the plain `RateLimiter` with the same configuration, over
every call sequence (with arbitrary interleaved load reports): bucket
capacity is fixed at creation from the burst size and the refill rate
is computed once at construction, so the temporary scaling of
`requests_per_minute` never alters any bucket; the scaled value shows
up only in the `limit` field of the rejection info, every other field
and the resulting limiter state being identical. -/
theorem claim10_adaptive_equivalence (a : AdaptiveRateLimiter)
    (calls : List (Option (ℚ × ℚ) × RateCall)) :
    a.runCalls calls = a.base.runCalls (calls.map Prod.snd) ∧
    (∀ (u t ip : Option String) (n now : ℚ),
      (a.checkRateLimit u t ip n now).1.1 =
        (a.base.checkRateLimit u t ip n now).1.1 ∧
      ((a.checkRateLimit u t ip n now).1.2).map (fun i =>
          (i.key, i.window, i.retryAfter, i.tokensRemaining)) =
        ((a.base.checkRateLimit u t ip n now).1.2).map (fun i =>
          (i.key, i.window, i.retryAfter, i.tokensRemaining)) ∧
      (a.checkRateLimit u t ip n now).2.base =
        (a.base.checkRateLimit u t ip n now).2) := by
  constructor
  · induction calls generalizing a with
    | nil => rfl
    | cons pc rest ih =>
        obtain ⟨loadReport, c⟩ := pc
        rw [AdaptiveRateLimiter.runCalls.eq_def, RateLimiter.runCalls.eq_def]
        cases loadReport with
        | none =>
            dsimp only
            rw [adaptive_check_single a c.userId c.toolName c.ipAddress
              c.requestSize c.now]
            simpa using ih _
        | some load =>
            obtain ⟨cu, mu⟩ := load
            dsimp only
            rw [adaptive_check_single (a.updateServerLoad cu mu) c.userId
              c.toolName c.ipAddress c.requestSize c.now,
              updateServerLoad_base]
            simpa using ih _
  · intro u t ip n now
    rw [adaptive_check_single a u t ip n now]
    refine ⟨rfl, ?_, rfl⟩
    cases (a.base.checkRateLimit u t ip n now).1.2 <;> rfl

theorem alookup_mem_keys {α : Type} (m : List (String × α)) (k : String)
    (v : α) (h : alookup m k = some v) : k ∈ m.map Prod.fst := by
  induction m with
  | nil => cases h
  | cons kv rest ih =>
      obtain ⟨k1, v1⟩ := kv
      by_cases hk : k1 = k
      · simp [hk]
      · simp only [alookup, if_neg hk] at h
        simp [ih h]

theorem executeReadyWave_new_keys (delegate : DelegateFn)
    (stepMap : List (String × WorkflowStep)) (initial : CompletedSteps)
    (hkeys : ∀ k step, alookup stepMap k = some step → step.stepId = k) :
    ∀ (wave : List String) (completedSteps : CompletedSteps)
      (s : String), amem completedSteps s = false → s ∉ wave →
    ∀ completedSteps',
      executeReadyWave delegate stepMap initial wave completedSteps =
        .ok completedSteps' →
      amem completedSteps' s = false := by
  intro wave
  induction wave with
  | nil =>
      intro completedSteps s hs hsw completedSteps' h
      cases h
      exact hs
  | cons stepId rest ih =>
      intro completedSteps s hs hsw completedSteps' h
      rw [executeReadyWave] at h
      cases hl : alookup stepMap stepId with
      | none => rw [hl] at h; cases h
      | some step =>
          rw [hl] at h
          dsimp only at h
          cases hex : executeWorkflowStep delegate step initial with
          | error e => rw [hex] at h; cases h
          | ok result =>
              rw [hex] at h
              dsimp only at h
              have hne : step.stepId ≠ s := by
                rw [hkeys stepId step hl]
                intro heq
                exact hsw (heq ▸ List.mem_cons_self stepId rest)
              refine ih _ s ?_ (fun hmem => hsw (List.mem_cons_of_mem _ hmem))
                completedSteps' h
              simp only [amem, alookup_aset_ne _ _ _ _ hne]
              exact hs


theorem parallel_cycle_error (delegate : DelegateFn)
    (stepMap : List (String × WorkflowStep)) (S : List String)
    (hkeys : ∀ k step, alookup stepMap k = some step → step.stepId = k)
    (hS : S ≠ [])
    (hScope : ∀ s ∈ S, amem stepMap s = true)
    (hcyc : ∀ s ∈ S, ∀ step, alookup stepMap s = some step →
      ∃ d ∈ step.dependsOn, d ∈ S) :
    ∀ (remainingSteps : List String) (completedSteps : CompletedSteps),
      (∀ s ∈ S, s ∈ remainingSteps) →
      (∀ s ∈ S, amem completedSteps s = false) →
      ∃ e, executeWorkflowParallel delegate stepMap remainingSteps
        completedSteps = .error e := by
  intro remainingSteps completedSteps
  induction remainingSteps, completedSteps using
    executeWorkflowParallel.induct delegate stepMap with
  | case1 completedSteps =>
      intro hrem _
      rcases S with _ | ⟨s0, S'⟩
      · exact absurd rfl hS
      · exact absurd (hrem s0 (List.mem_cons_self s0 S'))
          (List.not_mem_nil s0)
  | case2 completedSteps head tail hready =>
      intro hrem hcomp
      refine ⟨("Circular dependency detected in workflow",
        completedSteps), ?_⟩
      rw [executeWorkflowParallel]
      simp [hready]
  | case3 completedSteps head tail e hready hwave =>
      intro hrem hcomp
      refine ⟨e, ?_⟩
      rw [executeWorkflowParallel]
      simp [hready, hwave]
  | case4 completedSteps head tail completedSteps' hready hwave ih =>
      intro hrem hcomp
      have hnotready : ∀ s ∈ S,
          stepReady stepMap completedSteps s = false := by
        intro s hs
        obtain ⟨step, hstep⟩ : ∃ step, alookup stepMap s = some step := by
          have := hScope s hs
          unfold amem at this
          cases h : alookup stepMap s with
          | none => rw [h] at this; cases this
          | some st => exact ⟨st, rfl⟩
        obtain ⟨d, hd, hdS⟩ := hcyc s hs step hstep
        unfold stepReady
        rw [hstep]
        dsimp only
        rw [Bool.eq_false_iff]
        intro hall
        have hd2 := (List.all_eq_true.mp hall) d hd
        rw [hcomp d hdS] at hd2
        cases hd2
      have hSnotinwave : ∀ s ∈ S,
          s ∉ (head :: tail).filter (stepReady stepMap completedSteps) := by
        intro s hs hmem
        have := List.of_mem_filter hmem
        rw [hnotready s hs] at this
        cases this
      have hcomp' : ∀ s ∈ S, amem completedSteps' s = false := by
        intro s hs
        exact executeReadyWave_new_keys delegate stepMap completedSteps hkeys
          _ completedSteps s (hcomp s hs) (hSnotinwave s hs) completedSteps'
          hwave
      have hrem' : ∀ s ∈ S, s ∈ (head :: tail).filter
          (fun stepId => ! stepReady stepMap completedSteps stepId) := by
        intro s hs
        refine List.mem_filter.mpr ⟨hrem s hs, ?_⟩
        rw [hnotready s hs]
        rfl
      obtain ⟨e, he⟩ := ih hrem' hcomp'
      refine ⟨e, ?_⟩
      rw [executeWorkflowParallel]
      simp only [hready, hwave]
      simpa using he


theorem alookup_mem {α : Type} (m : List (String × α)) (k : String)
    (v : α) (h : alookup m k = some v) : (k, v) ∈ m := by
  induction m with
  | nil => cases h
  | cons kv rest ih =>
      obtain ⟨k1, v1⟩ := kv
      by_cases hk : k1 = k
      · subst hk
        rw [alookup, if_pos rfl] at h
        cases h
        simp
      · simp only [alookup, if_neg hk] at h
        simp [ih h]

theorem topoVisit_cycle (stepMap : List (String × WorkflowStep))
    (S : List String)
    (hScope : ∀ s ∈ S, amem stepMap s = true)
    (hcyc : ∀ s ∈ S, ∀ step, alookup stepMap s = some step →
      ∃ d ∈ step.dependsOn, d ∈ S) :
    ∀ (fuel : Nat) (visited tempVisited : List String)
      (order : List WorkflowStep) (sid : String),
      (∀ s ∈ S, s ∉ visited) →
      ∀ vo, topoVisit stepMap fuel visited tempVisited order sid = .ok vo →
        (∀ s ∈ S, s ∉ vo.1) ∧ sid ∉ S := by
  intro fuel
  induction fuel with
  | zero =>
      intro visited tempVisited order sid hinv vo h
      cases h
  | succ fuel ihA =>
      have hB : ∀ (deps : List String) (tempX : List String)
          (acc : List String × List WorkflowStep), (∀ s ∈ S, s ∉ acc.1) →
          ∀ acc2, deps.foldlM (fun acc depId =>
              if amem stepMap depId then
                topoVisit stepMap fuel acc.1 tempX acc.2 depId
              else pure acc) acc = .ok acc2 →
            (∀ s ∈ S, s ∉ acc2.1) ∧
            (∀ d ∈ deps, amem stepMap d = true → d ∉ S) := by
        intro deps
        induction deps with
        | nil =>
            intro tempX acc hinv acc2 h
            simp only [List.foldlM_nil] at h
            cases h
            exact ⟨hinv, by simp⟩
        | cons d rest ihd =>
            intro tempX acc hinv acc2 h
            rw [List.foldlM_cons] at h
            by_cases hmem : amem stepMap d = true
            · rw [if_pos hmem] at h
              cases hv : topoVisit stepMap fuel acc.1 tempX acc.2 d with
              | error e =>
                  rw [hv] at h
                  simp [bind, Except.bind] at h
              | ok acc1 =>
                  rw [hv] at h
                  simp only [bind, Except.bind] at h
                  obtain ⟨hinv1, hdS⟩ := ihA acc.1 tempX acc.2 d hinv acc1 hv
                  obtain ⟨hinv2, hrest⟩ := ihd tempX acc1 hinv1 acc2 h
                  refine ⟨hinv2, ?_⟩
                  intro d2 hd2 hd2mem
                  rcases List.mem_cons.mp hd2 with rfl | hd2rest
                  · exact hdS
                  · exact hrest d2 hd2rest hd2mem
            · rw [if_neg hmem] at h
              simp only [pure, Except.pure, bind, Except.bind] at h
              obtain ⟨hinv2, hrest⟩ := ihd tempX acc hinv acc2 h
              refine ⟨hinv2, ?_⟩
              intro d2 hd2 hd2mem
              rcases List.mem_cons.mp hd2 with rfl | hd2rest
              · exact absurd hd2mem hmem
              · exact hrest d2 hd2rest hd2mem
      intro visited tempVisited order sid hinv vo h
      rw [topoVisit] at h
      by_cases htemp : sid ∈ tempVisited
      · rw [if_pos htemp] at h
        cases h
      · rw [if_neg htemp] at h
        by_cases hvis : sid ∈ visited
        · rw [if_pos hvis] at h
          cases h
          exact ⟨hinv, fun hsS => hinv sid hsS hvis⟩
        · rw [if_neg hvis] at h
          cases hl : alookup stepMap sid with
          | none => rw [hl] at h; cases h
          | some step =>
              rw [hl] at h
              dsimp only at h
              cases hf : step.dependsOn.foldlM (fun acc depId =>
                  if amem stepMap depId then
                    topoVisit stepMap fuel acc.1 (sid :: tempVisited)
                      acc.2 depId
                  else pure acc) (visited, order) with
              | error e => rw [hf] at h; cases h
              | ok acc2 =>
                  rw [hf] at h
                  obtain ⟨vv, oo⟩ := acc2
                  cases h
                  obtain ⟨hinv2, hdeps⟩ := hB step.dependsOn
                    (sid :: tempVisited) (visited, order) hinv (vv, oo) hf
                  have hsidS : sid ∉ S := by
                    intro hsS
                    obtain ⟨d, hd, hdS⟩ := hcyc sid hsS step hl
                    exact hdeps d hd (hScope d hdS) hdS
                  refine ⟨?_, hsidS⟩
                  intro s hs
                  simp only [List.mem_cons, not_or]
                  exact ⟨fun heq => hsidS (heq ▸ hs), hinv2 s hs⟩


theorem topologicalSort_fold_error (stepMap : List (String × WorkflowStep))
    (S : List String)
    (hScope : ∀ s ∈ S, amem stepMap s = true)
    (hcyc : ∀ s ∈ S, ∀ step, alookup stepMap s = some step →
      ∃ d ∈ step.dependsOn, d ∈ S) :
    ∀ (l : List (String × WorkflowStep))
      (acc : List String × List WorkflowStep),
      (∀ s ∈ S, s ∉ acc.1) → (∃ kv ∈ l, kv.1 ∈ S) →
      ∃ e, l.foldlM (fun (acc : List String × List WorkflowStep) kv =>
          if kv.1 ∈ acc.1 then pure acc
          else topoVisit stepMap (stepMap.length + 1) acc.1 [] acc.2 kv.1)
        acc = .error e := by
  intro l
  induction l with
  | nil =>
      intro acc hinv hwit
      obtain ⟨kv, hkv, _⟩ := hwit
      cases hkv
  | cons kv rest ih =>
      intro acc hinv hwit
      obtain ⟨k1, v1⟩ := kv
      rw [List.foldlM_cons]
      by_cases hvis : k1 ∈ acc.1
      · rw [if_pos hvis]
        simp only [pure, Except.pure, bind, Except.bind]
        have hk1S : k1 ∉ S := fun hs => hinv k1 hs hvis
        refine ih acc hinv ?_
        obtain ⟨kv2, hkv2, hkv2S⟩ := hwit
        rcases List.mem_cons.mp hkv2 with rfl | hkv2rest
        · exact absurd hkv2S hk1S
        · exact ⟨kv2, hkv2rest, hkv2S⟩
      · rw [if_neg hvis]
        cases hv : topoVisit stepMap (stepMap.length + 1) acc.1 [] acc.2 k1 with
        | error e =>
            exact ⟨e, rfl⟩
        | ok acc1 =>
            simp only [bind, Except.bind]
            obtain ⟨hinv1, hk1S⟩ := topoVisit_cycle stepMap S hScope hcyc
              (stepMap.length + 1) acc.1 [] acc.2 k1 hinv acc1 hv
            refine ih acc1 hinv1 ?_
            obtain ⟨kv2, hkv2, hkv2S⟩ := hwit
            rcases List.mem_cons.mp hkv2 with rfl | hkv2rest
            · exact absurd hkv2S hk1S
            · exact ⟨kv2, hkv2rest, hkv2S⟩

theorem topologicalSort_cycle_error (stepMap : List (String × WorkflowStep))
    (S : List String) (hS : S ≠ [])
    (hScope : ∀ s ∈ S, amem stepMap s = true)
    (hcyc : ∀ s ∈ S, ∀ step, alookup stepMap s = some step →
      ∃ d ∈ step.dependsOn, d ∈ S) :
    ∃ e, topologicalSort stepMap = .error e := by
  rcases hS0 : S with _ | ⟨s0, S2⟩
  · exact absurd hS0 hS
  · have hs0S : s0 ∈ S := hS0 ▸ List.mem_cons_self s0 S2
    have hmem : amem stepMap s0 = true := hScope s0 hs0S
    obtain ⟨st0, hst0⟩ : ∃ st0, alookup stepMap s0 = some st0 := by
      unfold amem at hmem
      cases hl : alookup stepMap s0 with
      | none => rw [hl] at hmem; cases hmem
      | some st => exact ⟨st, rfl⟩
    obtain ⟨e, he⟩ := topologicalSort_fold_error stepMap S hScope hcyc
      stepMap ([], []) (by simp) ⟨(s0, st0), alookup_mem stepMap s0 st0 hst0,
        hs0S⟩
    refine ⟨e, ?_⟩
    unfold topologicalSort
    rw [he]
    rfl


theorem buildStepMap_keys (steps : List WorkflowStep) :
    ∀ k step, alookup (buildStepMap steps) k = some step →
      step.stepId = k := by
  unfold buildStepMap
  suffices h : ∀ (l : List WorkflowStep) (m : List (String × WorkflowStep)),
      (∀ k step, alookup m k = some step → step.stepId = k) →
      ∀ k step, alookup (l.foldl (fun m step => aset m step.stepId step) m)
        k = some step → step.stepId = k by
    exact h steps [] (by intro k step hk; cases hk)
  intro l
  induction l with
  | nil => intro m hm; exact hm
  | cons st rest ih =>
      intro m hm
      rw [List.foldl_cons]
      refine ih (aset m st.stepId st) ?_
      intro k step hk
      by_cases hkk : st.stepId = k
      · subst hkk
        rw [alookup_aset_self] at hk
        cases hk
        rfl
      · rw [alookup_aset_ne m st.stepId k st hkk] at hk
        exact hm k step hk


/-- C8.  Every workflow whose dependency graph contains a cycle —
witnessed by a non-empty set `S` of step ids, each present in the step
map and each depending on another member of `S` — produces a
`WorkflowResult` with `success = false`, in parallel and in sequential
mode alike, whatever the delegated executions do.  (`executeWorkflow`
is a total function of this model, so the run also provably
terminates.) -/
theorem claim8_workflow_cycle_detection (delegate : DelegateFn)
    (workflowId : String) (steps : List WorkflowStep) (S : List String)
    (hS : S ≠ [])
    (hScope : ∀ s ∈ S, amem (buildStepMap steps) s = true)
    (hcyc : ∀ s ∈ S, ∀ step, alookup (buildStepMap steps) s = some step →
      ∃ d ∈ step.dependsOn, d ∈ S) :
    (executeWorkflow delegate workflowId steps true).success = false ∧
    (executeWorkflow delegate workflowId steps false).success = false := by
  constructor
  · unfold executeWorkflow
    dsimp only
    obtain ⟨e, he⟩ := parallel_cycle_error delegate (buildStepMap steps) S
      (buildStepMap_keys steps) hS hScope hcyc
      ((buildStepMap steps).map Prod.fst) []
      (by
        intro s hs
        have hmem := hScope s hs
        unfold amem at hmem
        cases hl : alookup (buildStepMap steps) s with
        | none => rw [hl] at hmem; cases hmem
        | some st => exact alookup_mem_keys _ s st hl)
      (by intro s hs; rfl)
    obtain ⟨e1, e2⟩ := e
    rw [he]
    simp
  · unfold executeWorkflow
    dsimp only
    obtain ⟨e, he⟩ := topologicalSort_cycle_error (buildStepMap steps) S hS
      hScope hcyc
    unfold executeWorkflowSequential
    rw [he]
    simp


/-- Closed instance of C8: the two-step workflow `A depends_on B`,
`B depends_on A` fails with `success = false` in both execution
modes. -/
theorem claim8_workflow_cycle_detection_witness :
    (["A", "B"] ≠ ([] : List String)) ∧
    (executeWorkflow trivialDelegate "wf" [cycleStepA, cycleStepB]
        true).success = false ∧
    (executeWorkflow trivialDelegate "wf" [cycleStepA, cycleStepB]
        false).success = false := by
  have hScope : ∀ s ∈ ["A", "B"],
      amem (buildStepMap [cycleStepA, cycleStepB]) s = true := by decide
  have hcyc : ∀ s ∈ ["A", "B"], ∀ step,
      alookup (buildStepMap [cycleStepA, cycleStepB]) s = some step →
      ∃ d ∈ step.dependsOn, d ∈ ["A", "B"] := by
    intro s hs step hstep
    rcases List.mem_cons.mp hs with rfl | hs2
    · rw [show alookup (buildStepMap [cycleStepA, cycleStepB]) "A" =
          some cycleStepA from rfl] at hstep
      cases hstep
      exact ⟨"B", by decide, by decide⟩
    · rcases List.mem_cons.mp hs2 with rfl | hs3
      · rw [show alookup (buildStepMap [cycleStepA, cycleStepB]) "B" =
            some cycleStepB from rfl] at hstep
        cases hstep
        exact ⟨"A", by decide, by decide⟩
      · cases hs3
  exact ⟨by decide,
    (claim8_workflow_cycle_detection trivialDelegate "wf"
      [cycleStepA, cycleStepB] ["A", "B"] (by decide) hScope hcyc).1,
    (claim8_workflow_cycle_detection trivialDelegate "wf"
      [cycleStepA, cycleStepB] ["A", "B"] (by decide) hScope hcyc).2⟩

theorem splitOnChar_no_sep (sep : Char) (s : Str) (h : sep ∉ s) :
    splitOnChar sep s = [s] := by
  induction s with
  | nil => rfl
  | cons c rest ih =>
      have hc : ¬(c = sep) := fun hc => h (hc ▸ List.mem_cons_self c rest)
      have hrest : sep ∉ rest := fun hm => h (List.mem_cons_of_mem c hm)
      rw [splitOnChar, if_neg hc, ih hrest]

theorem splitOnChar_append (sep : Char) (a rest : Str) (h : sep ∉ a) :
    splitOnChar sep (a ++ sep :: rest) = a :: splitOnChar sep rest := by
  induction a with
  | nil => simp [splitOnChar]
  | cons c a ih =>
      have hc : ¬(c = sep) := fun hc => h (hc ▸ List.mem_cons_self c a)
      have ha : sep ∉ a := fun hm => h (List.mem_cons_of_mem c hm)
      rw [List.cons_append, splitOnChar, if_neg hc, ih ha]

theorem length_splitOnChar (sep : Char) (s : Str) :
    (splitOnChar sep s).length = s.count sep + 1 := by
  induction s with
  | nil => rfl
  | cons c rest ih =>
      rw [splitOnChar]
      by_cases hc : c = sep
      · subst hc
        simp [List.count_cons_self, ih]
      · have hcount : (c :: rest).count sep = rest.count sep := by
          simp [List.count_cons, hc]
        cases hsp : splitOnChar sep rest with
        | nil => rw [hsp] at ih; simp at ih
        | cons s ss =>
            rw [hsp] at ih
            rw [if_neg hc, hcount]
            simpa using ih

theorem b64Char_ne_dot (n : Nat) : b64Char n ≠ '.' := by
  have h64 : n % 64 < 64 := Nat.mod_lt _ (by norm_num)
  have hlen : n % 64 < b64Alphabet.length := by
    rw [show b64Alphabet.length = 64 from rfl]; exact h64
  have hget : b64Char n = b64Alphabet[n % 64] :=
    List.getD_eq_getElem b64Alphabet 'A' hlen
  have hmem : b64Char n ∈ b64Alphabet := hget ▸ List.getElem_mem hlen
  have hnd : ('.' : Char) ∉ b64Alphabet := by decide
  exact fun hEq => hnd (hEq ▸ hmem)

theorem b64Encode_ne_dot (bs : Bytes) : ('.' : Char) ∉ b64Encode bs := by
  induction bs using b64Encode.induct with
  | case1 => simp [b64Encode]
  | case2 a =>
      simp only [b64Encode, List.mem_cons, List.not_mem_nil, or_false]
      push_neg
      exact ⟨fun hEq => b64Char_ne_dot _ hEq.symm,
        fun hEq => b64Char_ne_dot _ hEq.symm, by decide, by decide⟩
  | case3 a b =>
      simp only [b64Encode, List.mem_cons, List.not_mem_nil, or_false]
      push_neg
      exact ⟨fun hEq => b64Char_ne_dot _ hEq.symm,
        fun hEq => b64Char_ne_dot _ hEq.symm,
        fun hEq => b64Char_ne_dot _ hEq.symm, by decide⟩
  | case4 a b c rest ih =>
      simp only [b64Encode, List.mem_cons]
      push_neg
      exact ⟨fun hEq => b64Char_ne_dot _ hEq.symm,
        fun hEq => b64Char_ne_dot _ hEq.symm,
        fun hEq => b64Char_ne_dot _ hEq.symm,
        fun hEq => b64Char_ne_dot _ hEq.symm, ih⟩

theorem mem_rstripEq {c : Char} {s : Str} (h : c ∈ rstripEq s) : c ∈ s := by
  unfold rstripEq at h
  rw [List.mem_reverse] at h
  have hsub := (List.dropWhile_sublist (l := s.reverse)
    (fun c => c = '=')).subset h
  rwa [List.mem_reverse] at hsub

theorem createSignature_ne_dot (hmacF : Bytes → Bytes → Bytes)
    (h : JWTAuthHandler) (message : Str) :
    ('.' : Char) ∉ createSignature hmacF h message := by
  intro hm
  exact b64Encode_ne_dot _ (mem_rstripEq hm)

theorem decodeJwt_split (hmacF : Bytes → Bytes → Bytes)
    (h : JWTAuthHandler) (now : ℚ) (hB pB s : Str)
    (hh : ('.' : Char) ∉ hB) (hp : ('.' : Char) ∉ pB)
    (hs : ('.' : Char) ∉ s) :
    decodeJwt hmacF h now (hB ++ '.' :: (pB ++ '.' :: s)) =
      if s = createSignature hmacF h (hB ++ '.' :: pB) then
        match jwtBase64Decode pB with
        | none => .error "base64 or UTF-8 decoding failed"
        | some payloadStr =>
            match jsonLoads payloadStr with
            | none => .error "json.JSONDecodeError"
            | some payload => checkTimeClaims h now payload
      else .error "Invalid JWT signature" := by
  have hsp : splitOnChar '.' (hB ++ '.' :: (pB ++ '.' :: s))
      = [hB, pB, s] := by
    rw [splitOnChar_append _ _ _ hh, splitOnChar_append _ _ _ hp,
      splitOnChar_no_sep _ _ hs]
  unfold decodeJwt
  rw [hsp]

theorem decodeJwt_format_error (hmacF : Bytes → Bytes → Bytes)
    (h : JWTAuthHandler) (now : ℚ) (token : Str)
    (hlen : (splitOnChar '.' token).length ≠ 3) :
    decodeJwt hmacF h now token = .error "Invalid JWT format" := by
  unfold decodeJwt
  cases hsp : splitOnChar '.' token with
  | nil => rfl
  | cons a l1 =>
      cases l1 with
      | nil => rfl
      | cons b l2 =>
          cases l2 with
          | nil => rfl
          | cons c l3 =>
              cases l3 with
              | nil => rw [hsp] at hlen; simp at hlen
              | cons d l4 => rfl

theorem generateToken_segments (hmacF : Bytes → Bytes → Bytes)
    (h : JWTAuthHandler) (u : Str) (perms : List Str) (genNow e : Int) :
    generateToken hmacF h u perms genNow e =
      headerSegment h ++ '.' ::
        (payloadSegment (tokenPayload u perms genNow e) ++ '.' ::
          signatureSegment hmacF h (tokenPayload u perms genNow e)) := by
  simp [generateToken, encodeJwt, headerSegment, payloadSegment,
    signatureSegment, List.append_assoc]

theorem checkTimeClaims_tokenPayload (h : JWTAuthHandler) (now : ℚ)
    (u : Str) (perms : List Str) (genNow e : Int)
    (Hexp : h.verifyExp = true) :
    checkTimeClaims h now (tokenPayload u perms genNow e) =
      if now > ((genNow + e : Int) : ℚ) + (h.leeway : ℚ) then
        .error "JWT token has expired"
      else checkIatClaim h now (tokenPayload u perms genNow e) := by
  have hexp : jlookup (tokenPayload u perms genNow e) "exp".data
      = some (.num (genNow + e)) := rfl
  unfold checkTimeClaims
  rw [hexp, if_pos ⟨Hexp, rfl⟩]

theorem checkIatClaim_self (h : JWTAuthHandler)
    (u : Str) (perms : List Str) (genNow e : Int)
    (Hlee : 0 ≤ h.leeway) :
    checkIatClaim h (genNow : ℚ) (tokenPayload u perms genNow e)
      = .ok (tokenPayload u perms genNow e) := by
  have hiat : jlookup (tokenPayload u perms genNow e) "iat".data
      = some (.num genNow) := rfl
  have hl : (0 : ℚ) ≤ (h.leeway : ℚ) := by exact_mod_cast Hlee
  unfold checkIatClaim
  rw [hiat]
  by_cases hvi : h.verifyIat = true
  · rw [if_pos ⟨hvi, rfl⟩]
    dsimp only
    rw [if_neg]
    intro hcon
    linarith
  · rw [if_neg (fun hand => hvi hand.1)]

/-- C3: for every user id, permission list and positive `expires_in`
(with a nonnegative leeway and `verify_exp` on): (i) a token from
`generate_token` decoded at issuance time by `_decode_jwt` under the
same secret yields exactly the generated payload, whose `sub` is the
user id and whose `permissions` are the permission list; (ii) changing
any single character of the signature segment makes `_decode_jwt`
fail; (iii) decoding at any time strictly past `exp` plus the leeway
fails with "JWT token has expired".  The hypotheses `Hseg`/`Hparse`
record that base64/UTF-8 and JSON decoding invert the corresponding
encodings on this payload (both hold by computation on any concrete
payload, as the witness checks). -/
theorem claim3_jwt_roundtrip_and_integrity
    (hmacF : Bytes → Bytes → Bytes) (h : JWTAuthHandler)
    (u : Str) (perms : List Str) (genNow e : Int)
    (He : 0 < e) (Hlee : 0 ≤ h.leeway) (Hexp : h.verifyExp = true)
    (Hseg : jwtBase64Decode (payloadSegment (tokenPayload u perms genNow e))
      = some (jsonDumps (tokenPayload u perms genNow e)))
    (Hparse : jsonLoads (jsonDumps (tokenPayload u perms genNow e))
      = some (tokenPayload u perms genNow e)) :
    (decodeJwt hmacF h (genNow : ℚ) (generateToken hmacF h u perms genNow e)
        = .ok (tokenPayload u perms genNow e)
      ∧ jlookup (tokenPayload u perms genNow e) "sub".data = some (.str u)
      ∧ jlookup (tokenPayload u perms genNow e) "permissions".data
          = some (.arr (perms.map .str)))
    ∧ (∀ i : Nat,
        ∀ hi : i < (signatureSegment hmacF h (tokenPayload u perms genNow e)).length,
        ∀ c : Char,
        c ≠ (signatureSegment hmacF h (tokenPayload u perms genNow e)).get ⟨i, hi⟩ →
        ∃ msg, decodeJwt hmacF h (genNow : ℚ)
          (headerSegment h ++ '.' ::
            (payloadSegment (tokenPayload u perms genNow e) ++ '.' ::
              (signatureSegment hmacF h (tokenPayload u perms genNow e)).set i c))
          = .error msg)
    ∧ (∀ now2 : ℚ, ((genNow + e : Int) : ℚ) + (h.leeway : ℚ) < now2 →
        decodeJwt hmacF h now2 (generateToken hmacF h u perms genNow e)
          = .error "JWT token has expired") := by
  have hhdr : ('.' : Char) ∉ headerSegment h := b64Encode_ne_dot _
  have hpl : ('.' : Char) ∉ payloadSegment (tokenPayload u perms genNow e) :=
    b64Encode_ne_dot _
  have hsig : ('.' : Char) ∉ signatureSegment hmacF h (tokenPayload u perms genNow e) :=
    createSignature_ne_dot _ _ _
  have hsigeq : signatureSegment hmacF h (tokenPayload u perms genNow e)
      = createSignature hmacF h
          (headerSegment h ++ '.' :: payloadSegment (tokenPayload u perms genNow e)) := rfl
  have hdecodeOk : ∀ now2 : ℚ,
      decodeJwt hmacF h now2 (generateToken hmacF h u perms genNow e)
        = checkTimeClaims h now2 (tokenPayload u perms genNow e) := by
    intro now2
    rw [generateToken_segments, decodeJwt_split _ _ _ _ _ _ hhdr hpl hsig,
      if_pos hsigeq, Hseg]
    dsimp only
    rw [Hparse]
  refine ⟨⟨?_, rfl, rfl⟩, ?_, ?_⟩
  · rw [hdecodeOk, checkTimeClaims_tokenPayload _ _ _ _ _ _ Hexp, if_neg,
      checkIatClaim_self _ _ _ _ _ Hlee]
    have he : (0 : ℚ) < (e : ℚ) := by exact_mod_cast He
    have hl : (0 : ℚ) ≤ (h.leeway : ℚ) := by exact_mod_cast Hlee
    push_cast
    intro hcon
    linarith
  · intro i hi c hc
    by_cases hdot : c = '.'
    · subst hdot
      refine ⟨"Invalid JWT format", decodeJwt_format_error _ _ _ _ ?_⟩
      rw [length_splitOnChar]
      have hi2 : i < ((signatureSegment hmacF h
          (tokenPayload u perms genNow e)).set i '.').length := by
        rw [List.length_set]; exact hi
      have hmem : ('.' : Char) ∈ (signatureSegment hmacF h
          (tokenPayload u perms genNow e)).set i '.' := by
        refine List.mem_iff_getElem.mpr ⟨i, hi2, ?_⟩
        exact List.getElem_set_self hi2
      have hpos : 0 < ((signatureSegment hmacF h
          (tokenPayload u perms genNow e)).set i '.').count '.' :=
        List.count_pos_iff.mpr hmem
      have h0h : (headerSegment h).count '.' = 0 := List.count_eq_zero.mpr hhdr
      have h0p : (payloadSegment (tokenPayload u perms genNow e)).count '.' = 0 :=
        List.count_eq_zero.mpr hpl
      rw [List.count_append, List.count_cons_self, List.count_append,
        List.count_cons_self, h0h, h0p]
      omega
    · refine ⟨"Invalid JWT signature", ?_⟩
      have hs2 : ('.' : Char) ∉ (signatureSegment hmacF h
          (tokenPayload u perms genNow e)).set i c := by
        intro hm
        rcases List.mem_or_eq_of_mem_set hm with hm2 | hm2
        · exact hsig hm2
        · exact hdot hm2.symm
      rw [decodeJwt_split _ _ _ _ _ _ hhdr hpl hs2, if_neg]
      intro heq
      rw [← hsigeq] at heq
      have h1 : ((signatureSegment hmacF h
            (tokenPayload u perms genNow e)).set i c)[i]?
          = (signatureSegment hmacF h (tokenPayload u perms genNow e))[i]? := by
        rw [heq]
      rw [List.getElem?_set_self hi, List.getElem?_eq_getElem hi] at h1
      exact hc (by rw [List.get_eq_getElem]; exact Option.some_inj.mp h1)
  · intro now2 hnow2
    rw [hdecodeOk, checkTimeClaims_tokenPayload _ _ _ _ _ _ Hexp,
      if_pos hnow2]

/-- Closed instance of C3 at the concrete scenario of the spec:
user `u1`, permissions `["read"]`, `expires_in = 3600`, issuance time
1000, the sample HS256 handler and a placeholder HMAC; the computational
hypotheses are discharged by evaluation. -/
theorem claim3_jwt_witness :
    (0 : Int) < 3600
    ∧ decodeJwt constHmac sampleJwtHandler ((1000 : Int) : ℚ)
        (generateToken constHmac sampleJwtHandler "u1".data
          ["read".data] 1000 3600)
      = .ok (tokenPayload "u1".data ["read".data] 1000 3600) :=
  ⟨by decide,
   (claim3_jwt_roundtrip_and_integrity constHmac sampleJwtHandler
     "u1".data ["read".data] 1000 3600 (by decide) (by decide) rfl
     (by rfl) (by rfl)).1.1⟩

end GrpcMcpSdk
